import Mathlib

set_option maxHeartbeats 1000000

/-!
Shallow embedding of the citation-graph analytics program
(`src/the_code_balotta.py`) and proofs about the claims of its
specification.

Conventions of the embedding:

* Python exceptions that escape a function are modelled by the
  `Except PyErr` monad: `.error e` means the Python call raises `e`
  (a fault propagating to the caller), `.ok v` means it returns `v`.
* Python strings are Lean `String`s; all character-level work is done
  on `String.data` (`List Char`), which matches Python's code-point
  view of strings.  `str.lower()` is modelled for the ASCII range.
* Python `int(s)` is modelled by `pyIntChars` (sign + digits, optional
  surrounding whitespace; the rarely-used underscore separators of
  Python numerals are not modelled).
* `datetime.date` is modelled by `PyDate` with the same validity range
  (years 1..9999); `dateutil.relativedelta` addition of years, months
  and days is modelled by `addYears`, `addMonths`, `addDays`, which
  clamp the day-of-month exactly as `relativedelta` does and raise
  (return `.error`) when the result leaves the representable range.
-/

inductive PyErr where
  | valueError
  | indexError
  | keyError
  | overflowError
deriving DecidableEq, Repr

deriving instance DecidableEq for Except

def isSpaceCh (c : Char) : Bool := c = ' ' || c = '\t' || c = '\n' || c = '\r'

def isDigitCh (c : Char) : Bool := decide ('0' ≤ c) && decide (c ≤ '9')

/-- Numeric value of a decimal digit character, `none` on non-digits. -/
def charValOpt (c : Char) : Option Nat :=
  if c = '0' then some 0 else if c = '1' then some 1 else if c = '2' then some 2
  else if c = '3' then some 3 else if c = '4' then some 4 else if c = '5' then some 5
  else if c = '6' then some 6 else if c = '7' then some 7 else if c = '8' then some 8
  else if c = '9' then some 9 else none

/-- Decimal digit character for a value below 10 (callers pass `n % 10`). -/
def digitChar10 (n : Nat) : Char :=
  if n = 0 then '0' else if n = 1 then '1' else if n = 2 then '2'
  else if n = 3 then '3' else if n = 4 then '4' else if n = 5 then '5'
  else if n = 6 then '6' else if n = 7 then '7' else if n = 8 then '8' else '9'

def natOfDigits (cs : List Char) : Nat :=
  cs.foldl (fun a c => 10 * a + (c.toNat - 48)) 0

/-- Python `int(str)`: optional surrounding whitespace, optional sign,
then a nonempty run of decimal digits; anything else raises `ValueError`. -/
def pyIntChars (cs : List Char) : Except PyErr Int :=
  let t := ((cs.dropWhile isSpaceCh).reverse.dropWhile isSpaceCh).reverse
  match t with
  | '-' :: ds =>
      if ds ≠ [] ∧ ds.all isDigitCh then .ok (-(natOfDigits ds : Int)) else .error .valueError
  | '+' :: ds =>
      if ds ≠ [] ∧ ds.all isDigitCh then .ok (natOfDigits ds : Int) else .error .valueError
  | ds =>
      if ds ≠ [] ∧ ds.all isDigitCh then .ok (natOfDigits ds : Int) else .error .valueError

structure PyDate where
  year : Int
  month : Int
  day : Int
deriving DecidableEq, Repr

def isLeap (y : Int) : Bool :=
  decide (Int.emod y 4 = 0) && (decide (Int.emod y 100 ≠ 0) || decide (Int.emod y 400 = 0))

def daysInMonth (y m : Int) : Int :=
  if m = 2 then (if isLeap y then 29 else 28)
  else if m = 4 ∨ m = 6 ∨ m = 9 ∨ m = 11 then 30
  else 31

def validDate (d : PyDate) : Prop :=
  1 ≤ d.year ∧ d.year ≤ 9999 ∧ 1 ≤ d.month ∧ d.month ≤ 12 ∧
    1 ≤ d.day ∧ d.day ≤ daysInMonth d.year d.month

instance (d : PyDate) : Decidable (validDate d) := by
  unfold validDate; infer_instance

/-- `dt + relativedelta(years=e)`: shift the year, clamp the day to the
length of the (unchanged) month, raise when the year leaves 1..9999. -/
def addYears (d : PyDate) (e : Int) : Except PyErr PyDate :=
  if 1 ≤ d.year + e ∧ d.year + e ≤ 9999 then
    .ok ⟨d.year + e, d.month, min d.day (daysInMonth (d.year + e) d.month)⟩
  else .error .valueError

/-- `dt + relativedelta(months=e)`: month-index arithmetic with overflow
normalised into the year (floor division; for the positive divisor 12,
`Int.ediv`/`Int.emod` is floor division), day clamped to the target
month's length. -/
def addMonths (d : PyDate) (e : Int) : Except PyErr PyDate :=
  if 1 ≤ Int.ediv (12 * d.year + (d.month - 1) + e) 12 ∧
      Int.ediv (12 * d.year + (d.month - 1) + e) 12 ≤ 9999 then
    .ok ⟨Int.ediv (12 * d.year + (d.month - 1) + e) 12,
         Int.emod (12 * d.year + (d.month - 1) + e) 12 + 1,
         min d.day (daysInMonth (Int.ediv (12 * d.year + (d.month - 1) + e) 12)
           (Int.emod (12 * d.year + (d.month - 1) + e) 12 + 1))⟩
  else .error .valueError

/-- Day number of a civil date (proleptic Gregorian), used to model exact
day arithmetic (`dt + relativedelta(days=e)` is a `timedelta` addition). -/
def daysFromCivil (d : PyDate) : Int :=
  let y := if d.month ≤ 2 then d.year - 1 else d.year
  let era := Int.ediv y 400
  let yoe := y - era * 400
  let mp := Int.emod (d.month + 9) 12
  let doy := Int.ediv (153 * mp + 2) 5 + d.day - 1
  let doe := yoe * 365 + Int.ediv yoe 4 - Int.ediv yoe 100 + doy
  era * 146097 + doe

def civilFromDays (z : Int) : PyDate :=
  let era := Int.ediv z 146097
  let doe := z - era * 146097
  let yoe := Int.ediv (doe - Int.ediv doe 1460 + Int.ediv doe 36524 - Int.ediv doe 146096) 365
  let y := yoe + era * 400
  let doy := doe - (365 * yoe + Int.ediv yoe 4 - Int.ediv yoe 100)
  let mp := Int.ediv (5 * doy + 2) 153
  let dd := doy - Int.ediv (153 * mp + 2) 5 + 1
  let mm := mp + (if mp < 10 then 3 else -9)
  if mm ≤ 2 then ⟨y + 1, mm, dd⟩ else ⟨y, mm, dd⟩

def addDays (d : PyDate) (e : Int) : Except PyErr PyDate :=
  let r := civilFromDays (daysFromCivil d + e)
  if 1 ≤ r.year ∧ r.year ≤ 9999 then .ok r else .error .overflowError

/-- `str(date)`: the canonical `YYYY-MM-DD` rendering (year zero-padded
to four digits, month and day to two), as a character list. -/
def renderDate (d : PyDate) : List Char :=
  let y := d.year.toNat
  let m := d.month.toNat
  let dd := d.day.toNat
  [digitChar10 ((y / 1000) % 10), digitChar10 ((y / 100) % 10),
   digitChar10 ((y / 10) % 10), digitChar10 (y % 10), '-',
   digitChar10 ((m / 10) % 10), digitChar10 (m % 10), '-',
   digitChar10 ((dd / 10) % 10), digitChar10 (dd % 10)]

/-- `datetime.fromisoformat` restricted to the strict `YYYY-MM-DD` form
(the only form the code feeds it, after padding). -/
def parseIso (s : String) : Except PyErr PyDate :=
  match s.data with
  | [a, b, c, d, s1, e, f, s2, g, h] =>
    if s1 = '-' ∧ s2 = '-' then
      match charValOpt a, charValOpt b, charValOpt c, charValOpt d,
            charValOpt e, charValOpt f, charValOpt g, charValOpt h with
      | some va, some vb, some vc, some vd, some ve, some vf, some vg, some vh =>
        if 1 ≤ ((1000 * va + 100 * vb + 10 * vc + vd : Nat) : Int) ∧
            1 ≤ ((10 * ve + vf : Nat) : Int) ∧ ((10 * ve + vf : Nat) : Int) ≤ 12 ∧
            1 ≤ ((10 * vg + vh : Nat) : Int) ∧
            ((10 * vg + vh : Nat) : Int) ≤
              daysInMonth ((1000 * va + 100 * vb + 10 * vc + vd : Nat) : Int)
                ((10 * ve + vf : Nat) : Int) then
          .ok ⟨((1000 * va + 100 * vb + 10 * vc + vd : Nat) : Int),
               ((10 * ve + vf : Nat) : Int), ((10 * vg + vh : Nat) : Int)⟩
        else .error .valueError
      | _, _, _, _, _, _, _, _ => .error .valueError
    else .error .valueError
  | _ => .error .valueError

/-- The padding step of `find_cited_date`: a 7-character reference gets
`"-01"` appended, a 4-character one gets `"-01-01"`. -/
def padRef (s : String) : String :=
  if s.length = 7 then s ++ "-01" else if s.length = 4 then s ++ "-01-01" else s

def colonize (c : Char) : Char := if c = 'Y' ∨ c = 'M' then ':' else c

/-- Python `str.split(sep)` for a single separator character (an empty
input yields one empty group, exactly as in Python). -/
def splitOnCh (sep : Char) : List Char → List (List Char)
  | [] => [[]]
  | c :: cs =>
    if c = sep then [] :: splitOnCh sep cs
    else
      match splitOnCh sep cs with
      | [] => [[c]]
      | g :: gs => (c :: g) :: gs

/-- The descriptor-parsing pipeline of `find_cited_date` (line 119-120):
replace `Y` and `M` by `:`, slice `[1:len-1]`, delete `P`s, split on `:`,
convert every part with `int`, and negate everything when the descriptor
starts with `P`.  An empty descriptor raises `IndexError` (the
`timespan[0]` access), a non-numeric part raises `ValueError`. -/
def timesPipeline (data : List Char) : Except PyErr (List Int) :=
  match data with
  | [] => .error .indexError
  | c0 :: _ =>
    let s1 := data.map colonize
    let mid := (s1.take (data.length - 1)).drop 1
    let noP := mid.filter (fun c => c ≠ 'P')
    let parts := splitOnCh ':' noP
    match parts.mapM pyIntChars with
    | .error e => .error e
    | .ok vals => .ok (if c0 = 'P' then vals.map (fun v => -v) else vals)

def timesOf (timespan : String) : Except PyErr (List Int) :=
  timesPipeline timespan.data

/-- The arithmetic chain of `find_cited_date` (lines 122-128): always add
the years; add months and then days only when those components exist
(the `IndexError` of a missing component is caught and ignored, so a
2-element list applies years and months only). -/
def resolveCore (d : PyDate) (ts : List Int) : Except PyErr PyDate :=
  match ts with
  | [] => .error .indexError
  | [t0] => addYears d t0
  | [t0, t1] =>
    match addYears d t0 with
    | .error e => .error e
    | .ok d1 => addMonths d1 t1
  | t0 :: t1 :: t2 :: _ =>
    match addYears d t0 with
    | .error e => .error e
    | .ok d1 =>
      match addMonths d1 t1 with
      | .error e => .error e
      | .ok d2 => addDays d2 t2

/-- `find_cited_date(citing_date, timespan)` (lines 112-130).  The
descriptor is parsed first (line 119-120 precede the `fromisoformat`
call), then the padded reference date is parsed, the components are
added, and the result is rendered and truncated to the original
reference length. -/
def find_cited_date (citing_date timespan : String) : Except PyErr String :=
  match timesOf timespan with
  | .error e => .error e
  | .ok ts =>
    match parseIso (padRef citing_date) with
    | .error e => .error e
    | .ok d0 =>
      match resolveCore d0 ts with
      | .error e => .error e
      | .ok d2 => .ok (String.mk ((renderDate d2).take citing_date.length))

/-!  ## Graph model

`networkx.DiGraph` is modelled by insertion-ordered association lists:
each node carries its optional `creation` attribute (`none` = the node's
attribute dict has no `creation` key), each edge carries its optional
`timespan` attribute.  Attribute access `G.nodes[x]['creation']` raises
`KeyError` when the node or the key is missing, which the embedding
models with `Except`.
-/

structure DiGraph where
  nodes : List (String × Option String)
  edges : List (String × String × Option String)
deriving DecidableEq, Repr

def nodeIds (g : DiGraph) : List String := g.nodes.map (fun p => p.1)

def hasNodeB (g : DiGraph) (x : String) : Bool := g.nodes.any (fun p => p.1 = x)

def hasEdgeB (g : DiGraph) (a b : String) : Bool :=
  g.edges.any (fun e => decide (e.1 = a) && decide (e.2.1 = b))

def lookupNode (g : DiGraph) (x : String) : Option (Option String) :=
  (g.nodes.find? (fun p => p.1 = x)).map (fun p => p.2)

def lookupEdge (g : DiGraph) (a b : String) : Option (Option String) :=
  (g.edges.find? (fun e => decide (e.1 = a) && decide (e.2.1 = b))).map (fun e => e.2.2)

/-- `G.nodes[x]['creation']`: raises `KeyError` when `x` is not a node or
has no `creation` attribute. -/
def creationOf (g : DiGraph) (x : String) : Except PyErr String :=
  match lookupNode g x with
  | none => .error .keyError
  | some none => .error .keyError
  | some (some c) => .ok c

def predecessors (g : DiGraph) (x : String) : List String :=
  (g.edges.filter (fun e => e.2.1 = x)).map (fun e => e.1)

/-- `G.add_node(x, creation=c)` as used at lines 16 and 18 (only called
when the node is absent). -/
def add_node (g : DiGraph) (x : String) (c : String) : DiGraph :=
  ⟨g.nodes ++ [(x, some c)], g.edges⟩

def ensureNode (g : DiGraph) (x : String) : DiGraph :=
  if hasNodeB g x then g else ⟨g.nodes ++ [(x, none)], g.edges⟩

def putEdge : List (String × String × Option String) → String → String → Option String →
    List (String × String × Option String)
  | [], a, b, t => [(a, b, t)]
  | e :: rest, a, b, t =>
    if e.1 = a ∧ e.2.1 = b then (a, b, t) :: rest else e :: putEdge rest a b t

/-- `G.add_edge(a, b, timespan=t)`: missing endpoints are created with an
empty attribute dict; an existing edge's attribute is overwritten. -/
def add_edge (g : DiGraph) (a b : String) (t : Option String) : DiGraph :=
  let g2 := ensureNode (ensureNode g a) b
  ⟨g2.nodes, putEdge g2.edges a b t⟩

/-- `nx.DiGraph(); result.add_edges_from(pairs)`: a fresh graph whose
nodes and edges have no attributes. -/
def addEdgesFresh (prs : List (String × String)) : DiGraph :=
  prs.foldl (fun g pr => add_edge g pr.1 pr.2 none) ⟨[], []⟩

/-- One row's node-creation steps (lines 15-18): ensure the citing node
exists with the row's creation date, then ensure the cited node exists
with the derived date (exceptions of `find_cited_date` propagate). -/
def ingestNodes (g : DiGraph) (a b c d : String) : Except PyErr DiGraph :=
  let g1 := if hasNodeB g a then g else add_node g a c
  if hasNodeB g1 b then .ok g1
  else
    match find_cited_date c d with
    | .error e => .error e
    | .ok cd => .ok (add_node g1 b cd)

/-- `process_citations` (lines 8-20), with the CSV reading abstracted to
the list of data rows (header already skipped): rows of length other
than 4 are skipped; the citing node gets the row's creation date, the
cited node gets a date derived by `find_cited_date` (whose exceptions
propagate), and the edge stores the timespan. -/
def processRows : DiGraph → List (List String) → Except PyErr DiGraph
  | g, [] => .ok g
  | g, row :: rest =>
    match row with
    | [a, b, c, d] =>
      match ingestNodes g a b c d with
      | .error e => .error e
      | .ok g2 => processRows (add_edge g2 a b (some d)) rest
    | _ => processRows g rest

def process_citations (rows : List (List String)) : Except PyErr DiGraph :=
  processRows ⟨[], []⟩ rows

/-- Creation-year of a node: `int(G.nodes[x]['creation'][0:4])`. -/
def creationYearE (g : DiGraph) (x : String) : Except PyErr Int :=
  match creationOf g x with
  | .error e => .error e
  | .ok c => pyIntChars (c.data.take 4)

/-- The numerator loop of `do_compute_impact_factor` (lines 31-34) over
one node's predecessor list. -/
def countCiting (g : DiGraph) (year : Int) : List String → Except PyErr Int
  | [] => .ok 0
  | c :: cs =>
    match creationYearE g c with
    | .error e => .error e
    | .ok yc =>
      match countCiting g year cs with
      | .error e => .error e
      | .ok rest => .ok ((if yc = year then 1 else 0) + rest)

/-- The main loop of `do_compute_impact_factor` (lines 27-39), with the
two counters as accumulators; identifiers absent from the graph are
skipped. -/
def ifLoop (g : DiGraph) (year : Int) : List String → Int → Int → Except PyErr (Int × Int)
  | [], cc, pc => .ok (cc, pc)
  | doi :: rest, cc, pc =>
    if hasNodeB g doi then
      match countCiting g year (predecessors g doi) with
      | .error e => .error e
      | .ok k =>
        match creationYearE g doi with
        | .error e => .error e
        | .ok yd =>
          ifLoop g year rest (cc + k) (pc + if yd = year - 1 ∨ yd = year - 2 then 1 else 0)
    else ifLoop g year rest cc pc

/-- `do_compute_impact_factor(data, dois, year)` (lines 23-43); `None` is
`none`, the float quotient is modelled exactly in `ℚ`. -/
def do_compute_impact_factor (g : DiGraph) (dois : List String) (year : Int) :
    Except PyErr (Option ℚ) :=
  match ifLoop g year dois 0 0 with
  | .error e => .error e
  | .ok (cc, pc) => .ok (if pc = 0 then none else some ((cc : ℚ) / (pc : ℚ)))

/-- Python string `<` (lexicographic on code points). -/
def pyStrLtB : List Char → List Char → Bool
  | [], [] => false
  | [], _ :: _ => true
  | _ :: _, [] => false
  | a :: as_, b :: bs => if a = b then pyStrLtB as_ bs else decide (a < b)

def pyStrLeB (a b : List Char) : Bool := pyStrLtB a b || decide (a = b)

/-- The 4-character creation-year prefix of `c` lies in `[start, stop]`
under Python string comparison. -/
def inWindowB (start stop : List Char) (c : String) : Bool :=
  pyStrLeB start (c.data.take 4) && pyStrLeB (c.data.take 4) stop

/-- The edge-selection loop of `do_get_citation_network` (lines 72-76):
the `creation` attribute of both endpoints is read (raising `KeyError`
when missing) and its 4-character prefix compared lexicographically
against the bounds. -/
def windowEdges (g : DiGraph) (start stop : List Char) :
    List (String × String × Option String) → Except PyErr (List (String × String))
  | [] => .ok []
  | e :: es =>
    match creationOf g e.1 with
    | .error er => .error er
    | .ok cf =>
      match creationOf g e.2.1 with
      | .error er => .error er
      | .ok ct =>
        match windowEdges g start stop es with
        | .error er => .error er
        | .ok rest =>
          .ok (if inWindowB start stop cf && inWindowB start stop ct
               then (e.1, e.2.1) :: rest else rest)

/-- `do_get_citation_network(data, start, end)` (lines 66-78): on a failed
bounds check the fresh empty graph is returned; otherwise the eligible
edges populate a fresh `DiGraph` (whose nodes therefore carry no
`creation` attribute). -/
def do_get_citation_network (g : DiGraph) (start stop : String) : Except PyErr DiGraph :=
  if pyStrLeB start.data stop.data ∧ start.length = 4 ∧ stop.length = 4 then
    match windowEdges g start.data stop.data g.edges with
    | .error e => .error e
    | .ok prs => .ok (addEdgesFresh prs)
  else .ok ⟨[], []⟩

/-- The concrete graph variants of networkx, standing in for Python's
`type(g)`.  The payload of every variant is kept as the same keyed
node/edge data, which is all `nx.compose` union semantics depends on
for the properties proved here. -/
inductive GraphKind where
  | diGraph
  | unGraph
  | multiDiGraph
  | multiGraph
deriving DecidableEq, Repr

structure TypedGraph where
  kind : GraphKind
  graph : DiGraph
deriving DecidableEq, Repr

/-- Attribute-dict union for a node present in `g1`, with `g2`'s entries
taking precedence per key: a `creation` present in `g2` overrides
`g1`'s, one absent from `g2` leaves `g1`'s visible. -/
def mergeNodeAttr (g2 : DiGraph) (p : String × Option String) : String × Option String :=
  match lookupNode g2 p.1 with
  | some b => (p.1, b <|> p.2)
  | none => p

def mergeEdgeAttr (g2 : DiGraph) (e : String × String × Option String) :
    String × String × Option String :=
  match lookupEdge g2 e.1 e.2.1 with
  | some v => (e.1, e.2.1, v <|> e.2.2)
  | none => e

/-- `nx.compose(g1, g2)`: node and edge union; for an item present in
both, the attribute dicts are united with `g2`'s entries taking
precedence per key. -/
def composeG (g1 g2 : DiGraph) : DiGraph :=
  ⟨g1.nodes.map (mergeNodeAttr g2) ++ g2.nodes.filter (fun p => !(hasNodeB g1 p.1)),
   g1.edges.map (mergeEdgeAttr g2) ++ g2.edges.filter (fun e => !(hasEdgeB g1 e.1 e.2.1))⟩

/-- `do_merge_graphs(data, g1, g2)` (lines 81-85): `None` signals the
type mismatch; same-type graphs are composed.  (The unused `data`
parameter is dropped.) -/
def do_merge_graphs (g1 g2 : TypedGraph) : Option TypedGraph :=
  if g1.kind = g2.kind then some ⟨g1.kind, composeG g1.graph g2.graph⟩ else none

/-- Mutation of a node's `creation` attribute on the source graph, used
to express (in)dependence of derived graphs from later mutation. -/
def setNodeCreation (g : DiGraph) (x : String) (c : String) : DiGraph :=
  ⟨g.nodes.map (fun p => if p.1 = x then (x, some c) else p), g.edges⟩

/-- The graph denoted by an `edge_subgraph` view at the current state of
its base graph: the retained edges (restricted to edges the base still
has) plus the incident nodes, all attributes read live from the base.
`do_search`/`do_filter_by_value` return such views, not copies. -/
def viewGraph (g : DiGraph) (kept : List (String × String)) : DiGraph :=
  let es := g.edges.filter (fun e => decide ((e.1, e.2.1) ∈ kept))
  ⟨g.nodes.filter (fun p => es.any (fun e => decide (e.1 = p.1) || decide (e.2.1 = p.1))), es⟩

/-!  ## Query compiler and evaluator

`translate_query_string_for_search` builds a Python source string in
which every non-operator token becomes `re.search("^<escaped>$","{0}")`
(escaping everything but `*`, which becomes the lazy any-run `.*?`),
and `evaluate_query_string` substitutes the field value into the
placeholders, `eval`s the string, and maps any raised exception to
`False`.  The embedding represents the compiled string by its token
list: a search term is kept as its list of literal segments (the query
token split on `*`), and evaluation models Python's `eval` of the
generated expression on the *plain fragment*, the inputs for which the
generated source is read back verbatim by Python's lexer:

* a token free of double quotes, backslashes and braces (`plainTokenB`)
  compiles to a pattern determined exactly by its `*`-split segments:
  `re.escape` prefixes a backslash only to regex-special characters,
  none of which is a recognised Python string escape, so the escapes
  survive the string literal intact and each denotes its literal
  character, and `str.format` finds no stray brace in the pattern;
* a value free of double quotes and backslashes (`plainValueB`)
  substitutes into the `"{0}"` literal verbatim; a line break in it
  then leaves an unterminated string literal, a `SyntaxError`
  (`badValueB`), which the bare `except` of `evaluate_query_string`
  turns into `False`; without a line break the literal denotes exactly
  the value;
* the token sequence is evaluated with Python's `not`/`and`/`or`
  precedence and short-circuiting; a malformed sequence is a
  `SyntaxError`, i.e. an evaluation failure;
* `.` in the generated patterns does not match a newline, and `$` also
  accepts a single trailing newline, as in `re`.

Outside the plain fragment Python's own escape processing takes over
and the generated source may change meaning entirely — the doubled
backslash that `re.escape` emits collapses in the eval'd literal and
leaves a live regex escape, a backslash or quote in a value is
consumed by the string literal (a quoted value can even splice new
expressions into the source) — so there the token list no longer
determines the outcome.  The embedding does not model that region, and
every theorem below whose content depends on match semantics is
restricted to the plain fragment; the robustness and subgraph-shape
theorems hold for every token list because they do not depend on which
boolean a term evaluates to.

The filter compiler is reproduced textually (placeholder insertion and
quoting, with the `IndexError` of a trailing operator), and its output
wordlist is read back into the same token language; a token that is
neither a placeholder comparison, an operator nor a quoted literal
evaluates as a Python bare name, raising `NameError` when reached
(implicit string-literal concatenation of adjacent quoted tokens, an
exotic Python fallback, is approximated as a failure as well;
comparison literals are compared as their raw characters, exact for
literals inside the plain fragment).
-/

def lowerCh (c : Char) : Char :=
  if 'A' ≤ c ∧ c ≤ 'Z' then Char.ofNat (c.toNat + 32) else c

def lowerChars (cs : List Char) : List Char := cs.map lowerCh

/-- Python `str.split()` (split on whitespace runs, no empty tokens):
first split at every whitespace character, then drop empty groups. -/
def wsSplit : List Char → List (List Char)
  | [] => [[]]
  | c :: cs =>
    if isSpaceCh c then [] :: wsSplit cs
    else
      match wsSplit cs with
      | [] => [[c]]
      | g :: gs => (c :: g) :: gs

def pyTokens (s : String) : List (List Char) :=
  (wsSplit s.data).filter (fun w => w ≠ [])

inductive CmpOp where
  | le | ge | eq | ne | lt | gt
deriving DecidableEq, Repr

def compOpOf? (w : List Char) : Option CmpOp :=
  match w with
  | ['<', '='] => some .le
  | ['>', '='] => some .ge
  | ['=', '='] => some .eq
  | ['!', '='] => some .ne
  | ['<'] => some .lt
  | ['>'] => some .gt
  | _ => none

inductive QAtom where
  | search (parts : List (List Char))
  | cmp (op : CmpOp) (lit : List Char)
  | bare (w : List Char)
deriving DecidableEq, Repr

inductive QTok where
  | atom (a : QAtom)
  | andT
  | orT
  | notT
deriving DecidableEq, Repr

/-- `translate_query_string_for_search` (lines 164-174): whitespace
tokens; `and`/`or`/`not` (checked before case folding) pass through;
every other token is case folded, `re.escape`d except for `*` (which
becomes `.*?`), anchored and wrapped in a `re.search` call.  The
embedding records the token's `*`-split case-folded segments, which
determine the compiled pattern exactly for tokens satisfying
`plainTokenB` (every `re.escape` escape then survives the eval'd string
literal and denotes a literal character). -/
def translate_query_string_for_search (query : String) : List QTok :=
  (pyTokens query).map (fun w =>
    if w = "and".data then .andT
    else if w = "or".data then .orT
    else if w = "not".data then .notT
    else .atom (.search (splitOnCh '*' (lowerChars w))))

def stripLitCh : List Char → List Char → Option (List Char)
  | [], cs => some cs
  | _ :: _, [] => none
  | p :: ps, c :: cs => if p = c then stripLitCh ps cs else none

/-- End-of-pattern acceptance of `$`: end of string, or just before a
newline that ends the string. -/
def endOkCh (cs : List Char) : Bool := cs = [] || cs = ['\n']

/-- All suffixes of `cs` reachable by consuming a run of non-newline
characters (the `.*?` gap) followed by the literal segment `p`. -/
def gapStrip (p : List Char) : List Char → List (List Char)
  | [] =>
    (match stripLitCh p [] with
     | some r => [r]
     | none => [])
  | c :: cs2 =>
    (match stripLitCh p (c :: cs2) with
     | some r => [r]
     | none => []) ++
    (if c ≠ '\n' then gapStrip p cs2 else [])

/-- Matching of `.*? seg₁ .*? seg₂ … $` against the rest of the value:
each gap matches a run of non-newline characters. -/
def reTail : List (List Char) → List Char → Bool
  | [], cs => endOkCh cs
  | p :: rest, cs => (gapStrip p cs).any (fun cs2 => reTail rest cs2)

/-- `re.search` of the anchored pattern `^ seg₀ .*? seg₁ … $` built for
a search term with segments `parts`. -/
def reMatchB (parts : List (List Char)) (v : List Char) : Bool :=
  match parts with
  | [] => endOkCh v
  | p :: rest =>
    match stripLitCh p v with
    | some cs2 => reTail rest cs2
    | none => false

/-- A line break in the substituted field value leaves an unterminated
string literal in the generated source, a `SyntaxError` raised by
`eval` (exact for values that substitute verbatim, i.e. satisfy
`plainValueB`). -/
def badValueB (v : List Char) : Bool :=
  v.any (fun c => c = '\n' || c = '\r')

def pyCmpB (op : CmpOp) (v lit : List Char) : Bool :=
  match op with
  | .le => pyStrLeB v lit
  | .ge => pyStrLeB lit v
  | .eq => decide (v = lit)
  | .ne => decide (v ≠ lit)
  | .lt => pyStrLtB v lit
  | .gt => pyStrLtB lit v

def evalAtomE (v : List Char) (a : QAtom) : Except Unit Bool :=
  match a with
  | .search parts => .ok (reMatchB parts v)
  | .cmp op lit => .ok (pyCmpB op v lit)
  | .bare _ => .error ()

/-- Left-to-right evaluation of the token sequence with Python's
`not` > `and` > `or` precedence: `andAcc` is the value of the current
`and` group, `orAcc` the disjunction of the completed groups, `parity`
the pending `not`s, `expectAtom` whether an operand is expected.  An
atom positioned where Python's short-circuiting would not evaluate it
(`orAcc` already true or `andAcc` already false) contributes nothing
and cannot raise. -/
def evalToksGo (v : List Char) :
    List QTok → Bool → Bool → Bool → Bool → Except Unit Bool
  | [], expectAtom, _, orAcc, andAcc =>
    if expectAtom then .error () else .ok (orAcc || andAcc)
  | .notT :: rest, expectAtom, parity, orAcc, andAcc =>
    if expectAtom then evalToksGo v rest true (!parity) orAcc andAcc else .error ()
  | .andT :: rest, expectAtom, _, orAcc, andAcc =>
    if expectAtom then .error () else evalToksGo v rest true false orAcc andAcc
  | .orT :: rest, expectAtom, _, orAcc, andAcc =>
    if expectAtom then .error () else evalToksGo v rest true false (orAcc || andAcc) true
  | .atom a :: rest, expectAtom, parity, orAcc, andAcc =>
    if expectAtom then
      if !orAcc && andAcc then
        match evalAtomE v a with
        | .error e => .error e
        | .ok b =>
          evalToksGo v rest false false orAcc (andAcc && (if parity then !b else b))
      else evalToksGo v rest false false orAcc andAcc
    else .error ()

/-- Substitution plus `eval` of the compiled expression on one field
value: `.error` means the Python evaluation raises. -/
def evalInner (toks : List QTok) (v : List Char) : Except Unit Bool :=
  if badValueB v then .error ()
  else evalToksGo v toks true false false true

/-- `evaluate_query_string(requery, fieldvalue)` (lines 133-138): the
bare `except` maps every raised exception to `False`. -/
def evaluate_query_string (toks : List QTok) (v : String) : Bool :=
  match evalInner toks v.data with
  | .ok b => b
  | .error _ => false

/-- The per-edge field value used by `get_filtered_list` (lines 141-153):
identifiers and timespans are case folded, `creation` is read from the
citing node unmodified; a missing `timespan`/`creation` attribute is a
`KeyError` raised outside any handler. -/
def fieldValE (g : DiGraph) (field : String) (e : String × String × Option String) :
    Except PyErr String :=
  if field = "citing" then .ok (String.mk (lowerChars e.1.data))
  else if field = "cited" then .ok (String.mk (lowerChars e.2.1.data))
  else if field = "creation" then creationOf g e.1
  else if field = "timespan" then
    match e.2.2 with
    | some t => .ok (String.mk (lowerChars t.data))
    | none => .error .keyError
  else .error .keyError

def filterEdgesM (g : DiGraph) (toks : List QTok) (field : String) :
    List (String × String × Option String) → Except PyErr (List (String × String))
  | [] => .ok []
  | e :: es =>
    match fieldValE g field e with
    | .error er => .error er
    | .ok val =>
      match filterEdgesM g toks field es with
      | .error er => .error er
      | .ok rest =>
        .ok (if evaluate_query_string toks val then (e.1, e.2.1) :: rest else rest)

/-- `get_filtered_list(data, requery, field)` (lines 141-153): an
unrecognised field yields the empty selection. -/
def get_filtered_list (g : DiGraph) (toks : List QTok) (field : String) :
    Except PyErr (List (String × String)) :=
  if field = "citing" ∨ field = "cited" ∨ field = "creation" ∨ field = "timespan" then
    filterEdgesM g toks field g.edges
  else .ok []

/-- `do_search(data, query, field)` (lines 98-101), up to the edge list
retained by the returned `edge_subgraph` view; the graph the view
denotes at any later state `g'` of the base is `viewGraph g' kept`. -/
def do_search (g : DiGraph) (query field : String) : Except PyErr (List (String × String)) :=
  get_filtered_list g (translate_query_string_for_search query) field

def placeholderTok : List Char := ['"', '{', '0', '}', '"']

/-- The index-collection loop of `translate_query_string_for_filter`
(lines 181-187). -/
def filterInsertIdxs : List (List Char) → Nat → List Nat
  | [], _ => []
  | w :: rest, i =>
    if (compOpOf? w).isSome then i :: filterInsertIdxs rest (i + 2)
    else filterInsertIdxs rest (i + 1)

/-- Python `list.insert` (clamping past-the-end indices to append). -/
def insertAt (n : Nat) (x : α) : List α → List α :=
  match n with
  | 0 => fun l => x :: l
  | n + 1 => fun l =>
    match l with
    | [] => [x]
    | c :: cs => c :: insertAt n x cs

/-- Python list item assignment `l[n] = f l[n]`, raising `IndexError`
past the end. -/
def setAtE (n : Nat) (f : α → α) : List α → Except PyErr (List α)
  | [] => .error .indexError
  | c :: cs =>
    match n with
    | 0 => .ok (f c :: cs)
    | m + 1 =>
      match setAtE m f cs with
      | .error e => .error e
      | .ok rest => .ok (c :: rest)

def quoteTok (w : List Char) : List Char := '"' :: (w ++ ['"'])

/-- The insertion loop of `translate_query_string_for_filter`
(lines 188-190): insert the quoted placeholder before each comparison
operator and quote the token following it. -/
def applyInserts : List Nat → List (List Char) → Except PyErr (List (List Char))
  | [], wl => .ok wl
  | el :: rest, wl =>
    match setAtE (el + 2) quoteTok (insertAt el placeholderTok wl) with
    | .error e => .error e
    | .ok wl2 => applyInserts rest wl2

def unquote? (w : List Char) : Option (List Char) :=
  match w with
  | '"' :: rest =>
    match rest.reverse with
    | '"' :: mid => some mid.reverse
    | _ => none
  | _ => none

/-- Non-placeholder tokens of the final filter wordlist:
`and`/`or`/`not` are the boolean operators, anything else evaluates as
a Python bare name and fails when reached. -/
def tokMapOne (w : List Char) : QTok :=
  if w = "and".data then .andT
  else if w = "or".data then .orT
  else if w = "not".data then .notT
  else .atom (.bare w)

/-- Reading the final filter wordlist back as evaluation tokens: a
placeholder followed by a comparison operator and a quoted literal is
one string comparison; anything else maps through `tokMapOne` (a stray
placeholder also evaluates as an unsupported form). -/
def tokensOfWordlist : List (List Char) → List QTok
  | [] => []
  | [w] => if w = placeholderTok then [.atom (.bare w)] else [tokMapOne w]
  | [w, x] =>
    (if w = placeholderTok then .atom (.bare w) else tokMapOne w) :: tokensOfWordlist [x]
  | w :: op :: lit :: rest2 =>
    if w = placeholderTok then
      match compOpOf? op, unquote? lit with
      | some o, some l => .atom (.cmp o l) :: tokensOfWordlist rest2
      | _, _ => .atom (.bare w) :: tokensOfWordlist (op :: lit :: rest2)
    else tokMapOne w :: tokensOfWordlist (op :: lit :: rest2)

/-- `translate_query_string_for_filter` (lines 177-192): tokenise,
insert placeholders and quotes, case fold the joined result. -/
def translate_query_string_for_filter (query : String) : Except PyErr (List QTok) :=
  let wl := pyTokens query
  match applyInserts (filterInsertIdxs wl 0) wl with
  | .error e => .error e
  | .ok wl2 => .ok (tokensOfWordlist (wl2.map lowerChars))

/-- `do_filter_by_value(data, query, field)` (lines 104-107), again up
to the retained edge list of the `edge_subgraph` view. -/
def do_filter_by_value (g : DiGraph) (query field : String) :
    Except PyErr (List (String × String)) :=
  match translate_query_string_for_filter query with
  | .error e => .error e
  | .ok toks => get_filtered_list g toks field

/-!  ## Auxiliary predicates used by the statements -/

/-- Direction inversion of an elapsed-time descriptor: toggle the
leading `-` (the code reads the direction off `timespan[0] == 'P'`). -/
def invertDesc (d : String) : String :=
  if d.data.head? = some '-' then String.mk (d.data.drop 1)
  else String.mk ('-' :: d.data)

/-- Shape of a sign-carrying descriptor: `P…` or `-P…`. -/
def descShapeB (d : String) : Bool :=
  decide (d.data.head? = some 'P') ||
    (decide (d.data.head? = some '-') && decide ((d.data.drop 1).head? = some 'P'))

/-- Every node of the graph has a `creation` attribute whose 4-character
prefix parses as an integer (the well-formedness the analytics code
presumes before it calls `int(...[0:4])`). -/
def wfCreationsB (g : DiGraph) : Bool :=
  g.nodes.all (fun p =>
    match p.2 with
    | some c => (pyIntChars (c.data.take 4)).isOk
    | none => false)

/-- Total read of a node's creation year (meaningful under
`wfCreationsB`). -/
def yearOf (g : DiGraph) (x : String) : Int :=
  match creationYearE g x with
  | .ok y => y
  | .error _ => 0

/-- Both endpoints of every edge are nodes of the graph (an invariant
`networkx` maintains for every graph it builds). -/
def edgesClosedB (g : DiGraph) : Bool :=
  g.edges.all (fun e => hasNodeB g e.1 && hasNodeB g e.2.1)

/-- Every edge endpoint carries a `creation` attribute. -/
def endpointsHaveCreationB (g : DiGraph) : Bool :=
  g.edges.all (fun e => (creationOf g e.1).isOk && (creationOf g e.2.1).isOk)

/-- Every node of the graph carries a `creation` attribute. -/
def allNodesHaveCreationB (g : DiGraph) : Bool :=
  g.nodes.all (fun p => p.2.isSome)

/-- The field value of an edge accessible to `get_filtered_list` without
raising (all attributes the given field needs are present). -/
def attrsOkB (g : DiGraph) (field : String) : Bool :=
  g.edges.all (fun e => (fieldValE g field e).isOk)

/-- An edge is eligible for the time window: both endpoint creations are
present and their 4-character year prefixes lie within the bounds. -/
def okWindowB (g : DiGraph) (start stop : List Char) (e : String × String × Option String) : Bool :=
  match creationOf g e.1, creationOf g e.2.1 with
  | .ok c1, .ok c2 => inWindowB start stop c1 && inWindowB start stop c2
  | _, _ => false

/-- The effective per-edge decision of `get_filtered_list`: the field
value (when readable) fed through `evaluate_query_string`; an edge
whose value makes the inner evaluation fail contributes `false`. -/
def edgeMatchesB (g : DiGraph) (toks : List QTok) (field : String)
    (e : String × String × Option String) : Bool :=
  match fieldValE g field e with
  | .ok v => evaluate_query_string toks v
  | .error _ => false

/-!  ## Theorems -/

theorem renderDate_length (d : PyDate) : (renderDate d).length = 10 := rfl

theorem string_mk_length (l : List Char) : (String.mk l).length = l.length := rfl

/-- C1: for every reference date of precision `YYYY`, `YYYY-MM` or
`YYYY-MM-DD` and every descriptor, whenever the duration resolver
returns a date string at all, that string has exactly the character
length of the reference date (the `YYYY-MM-DD` rendering is always 10
characters and is truncated to the reference's length). -/
theorem C1_precision_preserved (ref desc s : String)
    (hlen : ref.length = 4 ∨ ref.length = 7 ∨ ref.length = 10)
    (hok : find_cited_date ref desc = .ok s) :
    s.length = ref.length := by
  unfold find_cited_date at hok
  split at hok
  · simp at hok
  · split at hok
    · simp at hok
    · split at hok
      · simp at hok
      · simp only [Except.ok.injEq] at hok
        subst hok
        rw [string_mk_length, List.length_take, renderDate_length]
        rcases hlen with h | h | h <;> omega

theorem C1_precision_preserved_witness :
    ("2019-03" : String).length = ("2020-05" : String).length :=
  C1_precision_preserved "2020-05" "P1Y2M" "2019-03" (by decide) (by decide)

/-- C3 counterexample: the claim says a descriptor that fails the
duration grammar makes the resolver fail with `MalformedDescriptor`
signalled **as a result value** and that no core operation raises a
process-terminating fault.  In the code, `find_cited_date` on the
descriptor `"PXY"` (unparseable number) raises `ValueError` from
`int('X')` — in the embedding, a raised exception is an
`Except.error`, a propagating fault rather than a returned sentinel;
there is no `MalformedDescriptor` result value anywhere in the code. -/
theorem C3_counterexample :
    find_cited_date "2020-04-01" "PXY" = .error .valueError := by decide

/-- C3 amended: a descriptor that does not match the grammar is *not*
reported through a result value; an unparseable numeric component
raises `ValueError` and an empty descriptor raises `IndexError`
(faults that propagate out of the resolver), while a descriptor with
an unknown unit marker such as `P1W` is silently misread (here: as a
one-year offset) instead of being rejected. -/
theorem C3_amended_resolver_raises :
    find_cited_date "2020-01-01" "PXY" = .error .valueError ∧
    find_cited_date "2020-01-01" "" = .error .indexError ∧
    find_cited_date "2020-01-01" "P1W" = .ok "2019-01-01" := by decide

theorem except_isOk_iff {α : Type} (x : Except PyErr α) :
    x.isOk = true ↔ ∃ v, x = .ok v := by
  cases x <;> simp [Except.isOk, Except.toBool]

theorem ensureNode_edges (g : DiGraph) (z : String) :
    (ensureNode g z).edges = g.edges := by
  unfold ensureNode; split <;> rfl

theorem putEdge_pair_mem (es : List (String × String × Option String))
    (a b x y : String) (t : Option String) :
    (∃ u, (x, y, u) ∈ putEdge es a b t) ↔ (x = a ∧ y = b) ∨ ∃ u, (x, y, u) ∈ es := by
  induction es with
  | nil =>
    simp [putEdge, Prod.mk.injEq]
  | cons e rest ih =>
    obtain ⟨p, q, r⟩ := e
    by_cases h : p = a ∧ q = b
    · obtain ⟨hp, hq⟩ := h
      subst hp; subst hq
      simp [putEdge, Prod.mk.injEq]
      aesop
    · rw [show putEdge ((p, q, r) :: rest) a b t = (p, q, r) :: putEdge rest a b t by
          simp [putEdge, h]]
      simp only [List.mem_cons, Prod.mk.injEq]
      constructor
      · rintro ⟨u, ⟨hx, hy, hu⟩ | hu⟩
        · exact Or.inr ⟨u, Or.inl ⟨hx, hy, hu⟩⟩
        · rcases ih.mp ⟨u, hu⟩ with hab | ⟨w, hw⟩
          · exact Or.inl hab
          · exact Or.inr ⟨w, Or.inr hw⟩
      · rintro (hab | ⟨u, ⟨hx, hy, hu⟩ | hu⟩)
        · rcases ih.mpr (Or.inl hab) with ⟨w, hw⟩
          exact ⟨w, Or.inr hw⟩
        · exact ⟨u, Or.inl ⟨hx, hy, hu⟩⟩
        · rcases ih.mpr (Or.inr ⟨u, hu⟩) with ⟨w, hw⟩
          exact ⟨w, Or.inr hw⟩

theorem add_edge_pair_mem (g : DiGraph) (a b x y : String) (t : Option String) :
    (∃ u, (x, y, u) ∈ (add_edge g a b t).edges) ↔
      (x = a ∧ y = b) ∨ ∃ u, (x, y, u) ∈ g.edges := by
  have h : (add_edge g a b t).edges = putEdge g.edges a b t := by
    simp [add_edge, ensureNode_edges]
  rw [h]
  exact putEdge_pair_mem g.edges a b x y t

theorem foldl_add_edge_pair_mem (prs : List (String × String)) (g0 : DiGraph) (x y : String) :
    (∃ u, (x, y, u) ∈ (prs.foldl (fun g pr => add_edge g pr.1 pr.2 none) g0).edges) ↔
      (x, y) ∈ prs ∨ ∃ u, (x, y, u) ∈ g0.edges := by
  induction prs generalizing g0 with
  | nil => simp
  | cons pr rest ih =>
    rw [List.foldl_cons, ih, add_edge_pair_mem]
    simp only [List.mem_cons, Prod.ext_iff]
    tauto

theorem addEdgesFresh_pair_mem (prs : List (String × String)) (x y : String) :
    (∃ u, (x, y, u) ∈ (addEdgesFresh prs).edges) ↔ (x, y) ∈ prs := by
  unfold addEdgesFresh
  rw [foldl_add_edge_pair_mem]
  simp

theorem windowEdges_eq (g : DiGraph) (s t : List Char)
    (l : List (String × String × Option String))
    (h : ∀ e ∈ l, (creationOf g e.1).isOk = true ∧ (creationOf g e.2.1).isOk = true) :
    windowEdges g s t l =
      .ok ((l.filter (okWindowB g s t)).map (fun e => (e.1, e.2.1))) := by
  induction l with
  | nil => rfl
  | cons e rest ih =>
    obtain ⟨h1, h2⟩ := h e (List.mem_cons_self e rest)
    obtain ⟨c1, hc1⟩ := (except_isOk_iff _).mp h1
    obtain ⟨c2, hc2⟩ := (except_isOk_iff _).mp h2
    have hrest := ih (fun e' he' => h e' (List.mem_cons_of_mem e he'))
    have hok : okWindowB g s t e = (inWindowB s t c1 && inWindowB s t c2) := by
      simp [okWindowB, hc1, hc2]
    simp only [windowEdges, hc1, hc2, hrest, List.filter_cons, hok]
    by_cases hw : (inWindowB s t c1 && inWindowB s t c2) = true
    · simp [hw]
    · simp [hw]

theorem hasEdgeB_iff (g : DiGraph) (a b : String) :
    hasEdgeB g a b = true ↔ ∃ t, (a, b, t) ∈ g.edges := by
  simp only [hasEdgeB, List.any_eq_true, Bool.and_eq_true, decide_eq_true_eq]
  constructor
  · rintro ⟨⟨p, q, r⟩, he, h1, h2⟩
    simp only at h1 h2
    subst h1; subst h2
    exact ⟨r, he⟩
  · rintro ⟨t, ht⟩
    exact ⟨(a, b, t), ht, rfl, rfl⟩

theorem pyStrLtB_asymm (a : List Char) :
    ∀ b, pyStrLtB a b = true → pyStrLtB b a = true → False := by
  induction a with
  | nil =>
    intro b h1 h2
    cases b with
    | nil => simp [pyStrLtB] at h1
    | cons d ds => simp [pyStrLtB] at h2
  | cons c cs ih =>
    intro b h1 h2
    cases b with
    | nil => simp [pyStrLtB] at h1
    | cons d ds =>
      simp only [pyStrLtB] at h1 h2
      by_cases hcd : c = d
      · subst hcd
        rw [if_pos rfl] at h1 h2
        exact ih ds h1 h2
      · rw [if_neg hcd] at h1
        rw [if_neg (fun h => hcd h.symm)] at h2
        simp only [decide_eq_true_eq] at h1 h2
        exact absurd h2 (not_lt.mpr (le_of_lt h1))

theorem pyStrLeB_antisymm (a b : List Char)
    (h1 : pyStrLeB a b = true) (h2 : pyStrLeB b a = true) : a = b := by
  simp only [pyStrLeB, Bool.or_eq_true, decide_eq_true_eq] at h1 h2
  rcases h1 with h1 | h1
  · rcases h2 with h2 | h2
    · exact (pyStrLtB_asymm a b h1 h2).elim
    · exact h2.symm
  · exact h1

/-- C5: time-window extraction.  When `start > stop` lexicographically or
either bound is not exactly 4 characters the result is the (fresh)
empty graph; otherwise the result has an edge `x → y` exactly when the
source graph has it and the 4-character prefixes of both endpoints'
`creation` strings lie in `[start, stop]` under lexicographic string
comparison; in particular when `start = stop` both endpoints of every
retained edge were created in exactly that year string.  (The
hypothesis states that every edge endpoint carries a `creation`
attribute, which the code reads unconditionally.) -/
theorem C5_time_window (g : DiGraph) (start stop : String)
    (hattr : endpointsHaveCreationB g = true) :
    (¬ (pyStrLeB start.data stop.data = true ∧ start.length = 4 ∧ stop.length = 4) →
        do_get_citation_network g start stop = .ok ⟨[], []⟩) ∧
    ((pyStrLeB start.data stop.data = true ∧ start.length = 4 ∧ stop.length = 4) →
        ∃ G, do_get_citation_network g start stop = .ok G ∧
          (∀ x y : String, hasEdgeB G x y = true ↔
            ∃ u c1 c2, (x, y, u) ∈ g.edges ∧ creationOf g x = .ok c1 ∧
              creationOf g y = .ok c2 ∧ inWindowB start.data stop.data c1 = true ∧
              inWindowB start.data stop.data c2 = true) ∧
          (start = stop → ∀ x y : String, hasEdgeB G x y = true →
            ∃ c1 c2, creationOf g x = .ok c1 ∧ creationOf g y = .ok c2 ∧
              c1.data.take 4 = start.data ∧ c2.data.take 4 = start.data)) := by
  constructor
  · intro hneg
    unfold do_get_citation_network
    rw [if_neg hneg]
  · intro hpos
    have hall : ∀ e ∈ g.edges,
        (creationOf g e.1).isOk = true ∧ (creationOf g e.2.1).isOk = true := by
      intro e he
      have h := (List.all_eq_true.mp hattr) e he
      simpa [Bool.and_eq_true] using h
    refine ⟨addEdgesFresh ((g.edges.filter (okWindowB g start.data stop.data)).map
        (fun e => (e.1, e.2.1))), ?_, ?_⟩
    · unfold do_get_citation_network
      rw [if_pos hpos, windowEdges_eq g _ _ _ hall]
    have hiff : ∀ x y : String,
        hasEdgeB (addEdgesFresh ((g.edges.filter (okWindowB g start.data stop.data)).map
          (fun e => (e.1, e.2.1)))) x y = true ↔
        ∃ u c1 c2, (x, y, u) ∈ g.edges ∧ creationOf g x = .ok c1 ∧
          creationOf g y = .ok c2 ∧ inWindowB start.data stop.data c1 = true ∧
          inWindowB start.data stop.data c2 = true := by
      intro x y
      rw [hasEdgeB_iff, addEdgesFresh_pair_mem]
      simp only [List.mem_map, List.mem_filter]
      constructor
      · rintro ⟨⟨p, q, r⟩, ⟨he, hok⟩, heq⟩
        simp only [Prod.mk.injEq] at heq
        obtain ⟨hx, hy⟩ := heq
        subst hx; subst hy
        unfold okWindowB at hok
        cases hc1 : creationOf g p with
        | error er => rw [hc1] at hok; simp at hok
        | ok c1 =>
          cases hc2 : creationOf g q with
          | error er => rw [hc1, hc2] at hok; simp at hok
          | ok c2 =>
            rw [hc1, hc2] at hok
            simp only [Bool.and_eq_true] at hok
            exact ⟨r, c1, c2, he, rfl, rfl, hok.1, hok.2⟩
      · rintro ⟨u, c1, c2, hu, hc1, hc2, hw1, hw2⟩
        refine ⟨(x, y, u), ⟨hu, ?_⟩, rfl⟩
        unfold okWindowB
        rw [hc1, hc2]
        simp [hw1, hw2]
    refine ⟨hiff, ?_⟩
    intro hse x y hxy
    obtain ⟨u, c1, c2, hu, hc1, hc2, hw1, hw2⟩ := (hiff x y).mp hxy
    subst hse
    simp only [inWindowB, Bool.and_eq_true] at hw1 hw2
    exact ⟨c1, c2, hc1, hc2, (pyStrLeB_antisymm _ _ hw1.2 hw1.1).symm ▸ rfl,
      (pyStrLeB_antisymm _ _ hw2.2 hw2.1).symm ▸ rfl⟩

theorem C5_time_window_witness :
    do_get_citation_network
      ⟨[("a", some "2020-01"), ("b", some "2019-07")], [("a", "b", some "P1Y")]⟩
      "2020" "2019" = .ok ⟨[], []⟩ :=
  (C5_time_window
    ⟨[("a", some "2020-01"), ("b", some "2019-07")], [("a", "b", some "P1Y")]⟩
    "2020" "2019" (by decide)).1 (by decide)

theorem find?_map_of_pres {α : Type} (l : List α) (f : α → α) (p : α → Bool)
    (hf : ∀ x, p (f x) = p x) : (l.map f).find? p = (l.find? p).map f := by
  induction l with
  | nil => rfl
  | cons a rest ih =>
    simp only [List.map_cons, List.find?_cons, hf]
    cases hpa : p a <;> simp [ih]

theorem find?_append_eq {α : Type} (l1 l2 : List α) (p : α → Bool) :
    (l1 ++ l2).find? p = ((l1.find? p).orElse (fun _ => l2.find? p)) := by
  induction l1 with
  | nil => rfl
  | cons a rest ih =>
    simp only [List.cons_append, List.find?_cons]
    cases hpa : p a <;> simp [ih]

theorem find?_filter_eq {α : Type} (l : List α) (p q : α → Bool)
    (h : ∀ x, p x = true → q x = true) : (l.filter q).find? p = l.find? p := by
  induction l with
  | nil => rfl
  | cons a rest ih =>
    by_cases hq : q a = true
    · simp only [List.filter_cons, hq, if_true, List.find?_cons]
      cases hpa : p a <;> simp [ih]
    · have hqf : q a = false := by
        cases h' : q a
        · rfl
        · exact absurd h' hq
      have hpa : p a = false := by
        cases h' : p a
        · rfl
        · have hqq := h a h'
          rw [hqf] at hqq
          simp at hqq
      simp [List.filter_cons, hqf, List.find?_cons, hpa, ih]

theorem lookupNode_eq_find? (g : DiGraph) (x : String) :
    lookupNode g x = (g.nodes.find? (fun p => p.1 = x)).map (fun p => p.2) := rfl

theorem lookupEdge_eq_find? (g : DiGraph) (a b : String) :
    lookupEdge g a b =
      (g.edges.find? (fun e => decide (e.1 = a) && decide (e.2.1 = b))).map
        (fun e => e.2.2) := rfl

theorem hasNodeB_eq_isSome (g : DiGraph) (x : String) :
    hasNodeB g x = (lookupNode g x).isSome := by
  rw [lookupNode_eq_find?]
  unfold hasNodeB
  cases hf : g.nodes.find? (fun p => p.1 = x) with
  | none =>
    rw [List.find?_eq_none] at hf
    have hany : g.nodes.any (fun p => decide (p.1 = x)) = false := by
      simp only [List.any_eq_false]
      intro p hp
      simpa using hf p hp
    simp [hany]
  | some p =>
    have hmem := List.mem_of_find?_eq_some hf
    have hkey := List.find?_some hf
    have hany : g.nodes.any (fun p => decide (p.1 = x)) = true :=
      List.any_eq_true.mpr ⟨p, hmem, hkey⟩
    simp [hany]

theorem hasEdgeB_eq_isSome (g : DiGraph) (a b : String) :
    hasEdgeB g a b = (lookupEdge g a b).isSome := by
  rw [lookupEdge_eq_find?]
  unfold hasEdgeB
  cases hf : g.edges.find? (fun e => decide (e.1 = a) && decide (e.2.1 = b)) with
  | none =>
    rw [List.find?_eq_none] at hf
    have hany : g.edges.any (fun e => decide (e.1 = a) && decide (e.2.1 = b)) = false := by
      simp only [List.any_eq_false]
      intro e he
      simpa using hf e he
    simp [hany]
  | some e =>
    have hmem := List.mem_of_find?_eq_some hf
    have hkey := List.find?_some hf
    have hany : g.edges.any (fun e => decide (e.1 = a) && decide (e.2.1 = b)) = true :=
      List.any_eq_true.mpr ⟨e, hmem, hkey⟩
    simp [hany]

theorem mergeNodeAttr_key (g2 : DiGraph) (p : String × Option String) :
    (mergeNodeAttr g2 p).1 = p.1 := by
  unfold mergeNodeAttr
  cases lookupNode g2 p.1 <;> rfl

theorem mergeEdgeAttr_key (g2 : DiGraph) (e : String × String × Option String) :
    (mergeEdgeAttr g2 e).1 = e.1 ∧ (mergeEdgeAttr g2 e).2.1 = e.2.1 := by
  unfold mergeEdgeAttr
  cases lookupEdge g2 e.1 e.2.1 <;> exact ⟨rfl, rfl⟩

theorem composeG_lookupNode (g1 g2 : DiGraph) (x : String) :
    lookupNode (composeG g1 g2) x =
      match lookupNode g1 x, lookupNode g2 x with
      | some a, some b => some (b <|> a)
      | some a, none => some a
      | none, some b => some b
      | none, none => none := by
  have hpres : ∀ p : String × Option String,
      decide ((mergeNodeAttr g2 p).1 = x) = decide (p.1 = x) := by
    intro p
    rw [mergeNodeAttr_key]
  unfold composeG
  rw [lookupNode_eq_find?]
  simp only []
  rw [find?_append_eq, find?_map_of_pres _ _ _ hpres]
  cases hf1 : g1.nodes.find? (fun p => p.1 = x) with
  | some p =>
    have hkey : p.1 = x := by simpa using List.find?_some hf1
    have hl1 : lookupNode g1 x = some p.2 := by
      rw [lookupNode_eq_find?, hf1]; rfl
    rw [hl1]
    have horel : (some (mergeNodeAttr g2 p)).orElse
        (fun _ => (g2.nodes.filter (fun p => !(hasNodeB g1 p.1))).find?
          (fun p => decide (p.1 = x))) = some (mergeNodeAttr g2 p) := rfl
    have hms : Option.map (mergeNodeAttr g2) (some p) = some (mergeNodeAttr g2 p) := rfl
    rw [hms, horel]
    unfold mergeNodeAttr
    rw [hkey]
    cases hg2 : lookupNode g2 x with
    | some b => rfl
    | none => rfl
  | none =>
    have hl1 : lookupNode g1 x = none := by
      rw [lookupNode_eq_find?, hf1]; rfl
    have hno : hasNodeB g1 x = false := by
      rw [hasNodeB_eq_isSome, hl1]; rfl
    rw [hl1]
    have hfe : (g2.nodes.filter (fun p => !(hasNodeB g1 p.1))).find?
        (fun p => decide (p.1 = x)) = g2.nodes.find? (fun p => decide (p.1 = x)) := by
      apply find?_filter_eq
      intro p hp
      have hpx : p.1 = x := by simpa using hp
      rw [hpx, hno]
      rfl
    have horel : (Option.none.map (mergeNodeAttr g2)).orElse
        (fun _ => (g2.nodes.filter (fun p => !(hasNodeB g1 p.1))).find?
          (fun p => decide (p.1 = x))) =
        (g2.nodes.filter (fun p => !(hasNodeB g1 p.1))).find?
          (fun p => decide (p.1 = x)) := rfl
    rw [horel, hfe]
    rw [lookupNode_eq_find?]
    cases hg2 : g2.nodes.find? (fun p => decide (p.1 = x)) with
    | some q => rfl
    | none => rfl

theorem composeG_lookupEdge (g1 g2 : DiGraph) (a b : String) :
    lookupEdge (composeG g1 g2) a b =
      match lookupEdge g1 a b, lookupEdge g2 a b with
      | some u, some v => some (v <|> u)
      | some u, none => some u
      | none, some v => some v
      | none, none => none := by
  have hpres : ∀ e : String × String × Option String,
      (decide ((mergeEdgeAttr g2 e).1 = a) && decide ((mergeEdgeAttr g2 e).2.1 = b)) =
        (decide (e.1 = a) && decide (e.2.1 = b)) := by
    intro e
    rw [(mergeEdgeAttr_key g2 e).1, (mergeEdgeAttr_key g2 e).2]
  unfold composeG
  rw [lookupEdge_eq_find?]
  simp only []
  rw [find?_append_eq, find?_map_of_pres _ _ _ hpres]
  cases hf1 : g1.edges.find? (fun e => decide (e.1 = a) && decide (e.2.1 = b)) with
  | some e =>
    have hkey := List.find?_some hf1
    simp only [Bool.and_eq_true, decide_eq_true_eq] at hkey
    have hl1 : lookupEdge g1 a b = some e.2.2 := by
      rw [lookupEdge_eq_find?, hf1]; rfl
    rw [hl1]
    have hms : Option.map (mergeEdgeAttr g2) (some e) = some (mergeEdgeAttr g2 e) := rfl
    have horel : (some (mergeEdgeAttr g2 e)).orElse
        (fun _ => (g2.edges.filter (fun e => !(hasEdgeB g1 e.1 e.2.1))).find?
          (fun e => decide (e.1 = a) && decide (e.2.1 = b))) =
        some (mergeEdgeAttr g2 e) := rfl
    rw [hms, horel]
    unfold mergeEdgeAttr
    rw [hkey.1, hkey.2]
    cases hg2 : lookupEdge g2 a b with
    | some v => rfl
    | none => rfl
  | none =>
    have hl1 : lookupEdge g1 a b = none := by
      rw [lookupEdge_eq_find?, hf1]; rfl
    have hno : hasEdgeB g1 a b = false := by
      rw [hasEdgeB_eq_isSome, hl1]; rfl
    rw [hl1]
    have hfe : (g2.edges.filter (fun e => !(hasEdgeB g1 e.1 e.2.1))).find?
        (fun e => decide (e.1 = a) && decide (e.2.1 = b)) =
        g2.edges.find? (fun e => decide (e.1 = a) && decide (e.2.1 = b)) := by
      apply find?_filter_eq
      intro e he
      simp only [Bool.and_eq_true, decide_eq_true_eq] at he
      rw [he.1, he.2, hno]
      rfl
    have horel : (Option.map (mergeEdgeAttr g2) none).orElse
        (fun _ => (g2.edges.filter (fun e => !(hasEdgeB g1 e.1 e.2.1))).find?
          (fun e => decide (e.1 = a) && decide (e.2.1 = b))) =
        (g2.edges.filter (fun e => !(hasEdgeB g1 e.1 e.2.1))).find?
          (fun e => decide (e.1 = a) && decide (e.2.1 = b)) := rfl
    rw [horel, hfe, lookupEdge_eq_find?]
    cases hg2 : g2.edges.find? (fun e => decide (e.1 = a) && decide (e.2.1 = b)) with
    | some q => rfl
    | none => rfl

/-- C7: merging succeeds exactly when the two graphs are the same
concrete variant; the merged graph's node set is the union of the node
sets and its edge set the union of the edge sets, with the second
graph's attribute entry overriding the first's for a node or edge
present in both (and the first's entry surviving when the second
graph's attribute dict lacks the key); a variant mismatch is signalled
by the absent result `none`, not a raised fault. -/
theorem C7_merge_graphs (g1 g2 : TypedGraph) :
    ((do_merge_graphs g1 g2).isSome ↔ g1.kind = g2.kind) ∧
    (∀ gm, do_merge_graphs g1 g2 = some gm →
      gm.kind = g1.kind ∧
      (∀ x, lookupNode gm.graph x =
        match lookupNode g1.graph x, lookupNode g2.graph x with
        | some a, some b => some (b <|> a)
        | some a, none => some a
        | none, some b => some b
        | none, none => none) ∧
      (∀ a b, lookupEdge gm.graph a b =
        match lookupEdge g1.graph a b, lookupEdge g2.graph a b with
        | some u, some v => some (v <|> u)
        | some u, none => some u
        | none, some v => some v
        | none, none => none) ∧
      (∀ x, hasNodeB gm.graph x = (hasNodeB g1.graph x || hasNodeB g2.graph x)) ∧
      (∀ a b, hasEdgeB gm.graph a b = (hasEdgeB g1.graph a b || hasEdgeB g2.graph a b))) := by
  constructor
  · unfold do_merge_graphs
    by_cases h : g1.kind = g2.kind
    · simp [h]
    · simp [h]
  · intro gm hm
    unfold do_merge_graphs at hm
    by_cases h : g1.kind = g2.kind
    · rw [if_pos h] at hm
      simp only [Option.some.injEq] at hm
      subst hm
      refine ⟨rfl, ?_, ?_, ?_, ?_⟩
      · intro x
        exact composeG_lookupNode g1.graph g2.graph x
      · intro a b
        exact composeG_lookupEdge g1.graph g2.graph a b
      · intro x
        rw [hasNodeB_eq_isSome, composeG_lookupNode, hasNodeB_eq_isSome g1.graph,
          hasNodeB_eq_isSome g2.graph]
        cases lookupNode g1.graph x <;> cases lookupNode g2.graph x <;> rfl
      · intro a b
        rw [hasEdgeB_eq_isSome, composeG_lookupEdge, hasEdgeB_eq_isSome g1.graph,
          hasEdgeB_eq_isSome g2.graph]
        cases lookupEdge g1.graph a b <;> cases lookupEdge g2.graph a b <;> rfl
    · rw [if_neg h] at hm
      simp at hm

theorem C7_merge_graphs_witness :
    lookupNode (composeG ⟨[("a", some "2020")], []⟩ ⟨[("a", some "1999"), ("b", none)], []⟩)
      "a" = some (some "1999") := by
  have h := ((C7_merge_graphs ⟨.diGraph, ⟨[("a", some "2020")], []⟩⟩
      ⟨.diGraph, ⟨[("a", some "1999"), ("b", none)], []⟩⟩).2
      ⟨.diGraph, composeG ⟨[("a", some "2020")], []⟩ ⟨[("a", some "1999"), ("b", none)], []⟩⟩
      (by rfl)).2.1 "a"
  rw [h]
  decide

theorem ensureNode_of_hasNode (g : DiGraph) (x : String) (h : hasNodeB g x = true) :
    ensureNode g x = g := by
  unfold ensureNode
  rw [if_pos h]

theorem allNodes_add_node (g : DiGraph) (x c : String)
    (h : allNodesHaveCreationB g = true) :
    allNodesHaveCreationB (add_node g x c) = true := by
  unfold allNodesHaveCreationB add_node at *
  simp only [List.all_append, Bool.and_eq_true]
  exact ⟨h, by simp⟩

theorem hasNodeB_add_node_self (g : DiGraph) (x c : String) :
    hasNodeB (add_node g x c) x = true := by
  unfold hasNodeB add_node
  simp [List.any_append]

theorem hasNodeB_add_node_mono (g : DiGraph) (x c y : String) (h : hasNodeB g y = true) :
    hasNodeB (add_node g x c) y = true := by
  unfold hasNodeB add_node at *
  simp [List.any_append, h]

theorem add_edge_nodes_of_present (g : DiGraph) (a b : String) (t : Option String)
    (ha : hasNodeB g a = true) (hb : hasNodeB g b = true) :
    (add_edge g a b t).nodes = g.nodes := by
  simp only [add_edge]
  rw [ensureNode_of_hasNode g a ha, ensureNode_of_hasNode g b hb]

theorem ingestNodes_invariant (g : DiGraph) (a b c d : String) (g2 : DiGraph)
    (hg : allNodesHaveCreationB g = true) (h : ingestNodes g a b c d = .ok g2) :
    allNodesHaveCreationB g2 = true ∧ hasNodeB g2 a = true ∧ hasNodeB g2 b = true := by
  unfold ingestNodes at h
  by_cases hA : hasNodeB g a = true
  · rw [if_pos hA] at h
    by_cases hB : hasNodeB g b = true
    · rw [if_pos hB] at h
      simp only [Except.ok.injEq] at h
      subst h
      exact ⟨hg, hA, hB⟩
    · rw [if_neg hB] at h
      split at h
      · simp at h
      · next cd hcd =>
        simp only [Except.ok.injEq] at h
        subst h
        exact ⟨allNodes_add_node g b cd hg, hasNodeB_add_node_mono g b cd a hA,
          hasNodeB_add_node_self g b cd⟩
  · rw [if_neg hA] at h
    have hg1 : allNodesHaveCreationB (add_node g a c) = true := allNodes_add_node g a c hg
    have ha1 : hasNodeB (add_node g a c) a = true := hasNodeB_add_node_self g a c
    by_cases hB : hasNodeB (add_node g a c) b = true
    · rw [if_pos hB] at h
      simp only [Except.ok.injEq] at h
      subst h
      exact ⟨hg1, ha1, hB⟩
    · rw [if_neg hB] at h
      split at h
      · simp at h
      · next cd hcd =>
        simp only [Except.ok.injEq] at h
        subst h
        exact ⟨allNodes_add_node _ b cd hg1, hasNodeB_add_node_mono _ b cd a ha1,
          hasNodeB_add_node_self _ b cd⟩

theorem processRows_nodes_have_creation (rows : List (List String)) :
    ∀ g g', allNodesHaveCreationB g = true → processRows g rows = .ok g' →
      allNodesHaveCreationB g' = true := by
  induction rows with
  | nil =>
    intro g g' hg h
    unfold processRows at h
    simp only [Except.ok.injEq] at h
    subst h
    exact hg
  | cons row rest ih =>
    intro g g' hg h
    unfold processRows at h
    split at h
    · next a b c d =>
      split at h
      · simp at h
      · next g2 hI =>
        obtain ⟨h1, h2, h3⟩ := ingestNodes_invariant g a b c d g2 hg hI
        have hne : allNodesHaveCreationB (add_edge g2 a b (some d)) = true := by
          unfold allNodesHaveCreationB
          rw [add_edge_nodes_of_present g2 a b (some d) h2 h3]
          exact h1
        exact ih _ _ hne h
    · exact ih g g' hg h

/-- C10 amended: the invariant holds for the ingested graph: every node
`process_citations` ever creates is created through `add_node` with a
`creation` attribute, so every node of a successfully ingested graph
carries one.  It fails for time-window sub-networks (see the
counterexample), which build a fresh graph from bare edge pairs. -/
theorem C10_amended_ingested_creation (rows : List (List String)) (g' : DiGraph)
    (h : process_citations rows = .ok g') :
    allNodesHaveCreationB g' = true :=
  processRows_nodes_have_creation rows ⟨[], []⟩ g' rfl h

theorem C10_amended_ingested_creation_witness :
    allNodesHaveCreationB
      ⟨[("a", some "2020-05"), ("b", some "2019-03")], [("a", "b", some "P1Y2M")]⟩ = true :=
  C10_amended_ingested_creation [["a", "b", "2020-05", "P1Y2M"]] _ (by decide)

/-- C10 counterexample: the claim's invariant "every node reachable from
an edge has a `creation` value" is violated by `do_get_citation_network`,
which populates its fresh result graph with `add_edges_from`: in the
result below, node `"a"` is an endpoint of the retained edge but its
attribute dict is empty (`lookupNode … = some none`). -/
theorem C10_counterexample :
    do_get_citation_network
      ⟨[("a", some "2020-01"), ("b", some "2019-07")], [("a", "b", some "P1Y")]⟩
      "2019" "2020" = .ok ⟨[("a", none), ("b", none)], [("a", "b", none)]⟩ ∧
    hasEdgeB ⟨[("a", none), ("b", none)], [("a", "b", none)]⟩ "a" "b" = true ∧
    lookupNode ⟨[("a", none), ("b", none)], [("a", "b", none)]⟩ "a" = some none := by
  decide

theorem creationYearE_ok (g : DiGraph) (hwf : wfCreationsB g = true) (x : String)
    (hx : hasNodeB g x = true) : creationYearE g x = .ok (yearOf g x) := by
  have hsome : (lookupNode g x).isSome = true := by
    rw [← hasNodeB_eq_isSome]; exact hx
  rw [lookupNode_eq_find?] at hsome
  cases hf : g.nodes.find? (fun p => p.1 = x) with
  | none => rw [hf] at hsome; simp at hsome
  | some p =>
    have hmem := List.mem_of_find?_eq_some hf
    unfold wfCreationsB at hwf
    have hwfp := List.all_eq_true.mp hwf p hmem
    cases hp2 : p.2 with
    | none => rw [hp2] at hwfp; simp at hwfp
    | some c =>
      rw [hp2] at hwfp
      simp only at hwfp
      obtain ⟨y, hy⟩ := (except_isOk_iff _).mp hwfp
      have hco : creationOf g x = .ok c := by
        unfold creationOf
        rw [lookupNode_eq_find?, hf]
        simp [hp2]
      have hcy : creationYearE g x = .ok y := by
        unfold creationYearE
        rw [hco]
        exact hy
      rw [hcy]
      unfold yearOf
      rw [hcy]

theorem countCiting_eq (g : DiGraph) (year : Int) (l : List String)
    (h : ∀ c ∈ l, creationYearE g c = .ok (yearOf g c)) :
    countCiting g year l = .ok ((l.countP (fun c => decide (yearOf g c = year)) : Nat) : Int) := by
  induction l with
  | nil => rfl
  | cons c cs ih =>
    have hc := h c (List.mem_cons_self c cs)
    have hrest := ih (fun c' hc' => h c' (List.mem_cons_of_mem c hc'))
    unfold countCiting
    rw [hc, hrest]
    simp only [Except.ok.injEq, List.countP_cons]
    by_cases hy : yearOf g c = year
    · simp [hy]
      omega
    · simp [hy]

theorem mem_predecessors (g : DiGraph) (d c : String) :
    c ∈ predecessors g d ↔ ∃ t, (c, d, t) ∈ g.edges := by
  unfold predecessors
  simp only [List.mem_map, List.mem_filter, decide_eq_true_eq]
  constructor
  · rintro ⟨⟨p, q, r⟩, ⟨he, hq⟩, hp⟩
    simp only at hp hq
    subst hp; subst hq
    exact ⟨r, he⟩
  · rintro ⟨t, ht⟩
    exact ⟨(c, d, t), ⟨ht, rfl⟩, rfl⟩

theorem countP_or_disjoint {α : Type} (l : List α) (p q : α → Bool)
    (h : ∀ x ∈ l, ¬(p x = true ∧ q x = true)) :
    l.countP (fun x => p x || q x) = l.countP p + l.countP q := by
  induction l with
  | nil => rfl
  | cons a rest ih =>
    have hrest := ih (fun x hx => h x (List.mem_cons_of_mem a hx))
    simp only [List.countP_cons, hrest]
    by_cases hp : p a = true
    · have hq : q a = false := by
        cases hq' : q a
        · rfl
        · exact absurd ⟨hp, hq'⟩ (h a (List.mem_cons_self a rest))
      simp only [hp, hq, Bool.true_or, if_true, Bool.false_eq_true, if_false]
      omega
    · have hp' : p a = false := by
        cases h' : p a
        · rfl
        · exact absurd h' hp
      by_cases hq : q a = true
      · simp only [hp', hq, Bool.false_or, if_true, Bool.false_eq_true, if_false]
        omega
      · have hq' : q a = false := by
          cases h' : q a
          · rfl
          · exact absurd h' hq
        simp only [hp', hq', Bool.false_or, Bool.false_eq_true, if_false]
        omega

theorem ifLoop_eq (g : DiGraph) (year : Int) (hwf : wfCreationsB g = true)
    (hcl : edgesClosedB g = true) :
    ∀ (dois : List String) (cc pc : Int),
    ifLoop g year dois cc pc = .ok
      (cc + (((dois.filter (fun d => hasNodeB g d)).map
          (fun d => (predecessors g d).countP (fun c => decide (yearOf g c = year)))).sum : Int),
       pc + ((dois.countP (fun d => hasNodeB g d &&
          (decide (yearOf g d = year - 1) || decide (yearOf g d = year - 2)))) : Int)) := by
  intro dois
  induction dois with
  | nil =>
    intro cc pc
    simp [ifLoop]
  | cons d ds ih =>
    intro cc pc
    unfold ifLoop
    by_cases hd : hasNodeB g d = true
    · rw [if_pos hd]
      have hpred : ∀ c ∈ predecessors g d, creationYearE g c = .ok (yearOf g c) := by
        intro c hc
        obtain ⟨t, ht⟩ := (mem_predecessors g d c).mp hc
        have hcn : hasNodeB g c = true := by
          unfold edgesClosedB at hcl
          have hh := List.all_eq_true.mp hcl (c, d, t) ht
          simp only [Bool.and_eq_true] at hh
          exact hh.1
        exact creationYearE_ok g hwf c hcn
      simp only [countCiting_eq g year _ hpred, creationYearE_ok g hwf d hd]
      rw [ih]
      simp only [Except.ok.injEq, Prod.mk.injEq, List.filter_cons, hd, if_true,
        List.map_cons, List.sum_cons, List.countP_cons]
      constructor
      · push_cast
        ring
      · by_cases h1 : yearOf g d = year - 1
        · simp only [h1, if_pos (Or.inl rfl)]
          simp [hd]
          ring
        · by_cases h2 : yearOf g d = year - 2
          · simp only [h2, if_pos (Or.inr rfl)]
            simp [hd, h1]
            ring
          · rw [if_neg (by tauto)]
            simp [hd, h1, h2]
    · rw [if_neg hd]
      rw [ih]
      have hdf : hasNodeB g d = false := by
        cases h' : hasNodeB g d
        · rfl
        · exact absurd h' hd
      simp only [Except.ok.injEq, Prod.mk.injEq, List.filter_cons, hdf,
        Bool.false_eq_true, if_false, List.countP_cons, Bool.false_and]
      constructor
      · trivial
      · simp

theorem countP_predecessors (g : DiGraph) (d : String) (P : String → Bool) :
    (predecessors g d).countP P =
      g.edges.countP (fun e => decide (e.2.1 = d) && P e.1) := by
  unfold predecessors
  rw [List.countP_map, List.countP_filter]
  congr 1
  funext e
  exact Bool.and_comm _ _

theorem sum_pred_counts_eq_edge_count (g : DiGraph) (year : Int)
    (hcl : edgesClosedB g = true) :
    ∀ (dois : List String), dois.Nodup →
    ((dois.filter (fun d => hasNodeB g d)).map
        (fun d => (predecessors g d).countP (fun c => decide (yearOf g c = year)))).sum =
      g.edges.countP (fun e => decide (e.2.1 ∈ dois) && decide (yearOf g e.1 = year)) := by
  intro dois
  induction dois with
  | nil =>
    intro _
    simp
  | cons d ds ih =>
    intro hnd
    have hd_notin : d ∉ ds := (List.nodup_cons.mp hnd).1
    have hnd' := (List.nodup_cons.mp hnd).2
    have hsplit : g.edges.countP
        (fun e => decide (e.2.1 ∈ d :: ds) && decide (yearOf g e.1 = year)) =
        g.edges.countP (fun e => decide (e.2.1 = d) && decide (yearOf g e.1 = year)) +
        g.edges.countP (fun e => decide (e.2.1 ∈ ds) && decide (yearOf g e.1 = year)) := by
      rw [← countP_or_disjoint g.edges _ _ ?_]
      · congr 1
        funext e
        by_cases h1 : e.2.1 = d <;> by_cases h2 : e.2.1 ∈ ds <;>
          by_cases h3 : yearOf g e.1 = year <;>
          simp [h1, h2, h3, List.mem_cons]
      · intro e he
        rintro ⟨ha, hb⟩
        simp only [Bool.and_eq_true, decide_eq_true_eq] at ha hb
        exact hd_notin (ha.1 ▸ hb.1)
    by_cases hd : hasNodeB g d = true
    · simp only [List.filter_cons, hd, if_true, List.map_cons, List.sum_cons]
      rw [ih hnd', countP_predecessors, hsplit]
    · have hdf : hasNodeB g d = false := by
        cases h' : hasNodeB g d
        · rfl
        · exact absurd h' hd
      simp only [List.filter_cons, hdf, Bool.false_eq_true, if_false]
      rw [ih hnd', hsplit]
      have hzero : g.edges.countP
          (fun e => decide (e.2.1 = d) && decide (yearOf g e.1 = year)) = 0 := by
        rw [List.countP_eq_zero]
        intro e he
        simp only [Bool.and_eq_true, decide_eq_true_eq, not_and]
        intro h1 _
        unfold edgesClosedB at hcl
        have hh := List.all_eq_true.mp hcl e he
        simp only [Bool.and_eq_true] at hh
        rw [h1, hdf] at hh
        exact absurd hh.2 (by simp)
      omega

/-- C4: the impact factor returns the absent result `none` exactly when
no identifier of the set that is present in the graph has a creation
year equal to `year-1` or `year-2` — regardless of how many citations
exist — and otherwise returns the pooled count of citation edges into
the set whose source node's creation year (the integer value of the
first four characters of its `creation` string) equals `year`, divided
by that denominator.  Hypotheses: all node creations parse
(`int(...[0:4])` is called unconditionally), edge endpoints are graph
nodes (a `networkx` invariant), and the document set has no
duplicates. -/
theorem C4_impact_factor (g : DiGraph) (dois : List String) (year : Int)
    (hwf : wfCreationsB g = true) (hcl : edgesClosedB g = true) (hnd : dois.Nodup) :
    (do_compute_impact_factor g dois year = .ok (
      if dois.countP (fun d => hasNodeB g d &&
          (decide (yearOf g d = year - 1) || decide (yearOf g d = year - 2))) = 0
      then none
      else some ((g.edges.countP (fun e => decide (e.2.1 ∈ dois) &&
            decide (yearOf g e.1 = year)) : ℚ) /
          (dois.countP (fun d => hasNodeB g d &&
            (decide (yearOf g d = year - 1) || decide (yearOf g d = year - 2))) : ℚ)))) ∧
    (do_compute_impact_factor g dois year = .ok none ↔
      ∀ d ∈ dois, hasNodeB g d = true →
        yearOf g d ≠ year - 1 ∧ yearOf g d ≠ year - 2) := by
  have hloop := ifLoop_eq g year hwf hcl dois 0 0
  have hmain : do_compute_impact_factor g dois year = .ok (
      if dois.countP (fun d => hasNodeB g d &&
          (decide (yearOf g d = year - 1) || decide (yearOf g d = year - 2))) = 0
      then none
      else some ((g.edges.countP (fun e => decide (e.2.1 ∈ dois) &&
            decide (yearOf g e.1 = year)) : ℚ) /
          (dois.countP (fun d => hasNodeB g d &&
            (decide (yearOf g d = year - 1) || decide (yearOf g d = year - 2))) : ℚ))) := by
    unfold do_compute_impact_factor
    simp only [hloop, zero_add]
    rw [sum_pred_counts_eq_edge_count g year hcl dois hnd]
    by_cases hD : dois.countP (fun d => hasNodeB g d &&
        (decide (yearOf g d = year - 1) || decide (yearOf g d = year - 2))) = 0
    · rw [hD]
      simp
    · rw [if_neg (by exact_mod_cast hD), if_neg hD]
      simp only [Except.ok.injEq, Option.some.injEq]
      push_cast
      ring
  refine ⟨hmain, ?_⟩
  rw [hmain]
  constructor
  · intro h
    by_cases hD : dois.countP (fun d => hasNodeB g d &&
        (decide (yearOf g d = year - 1) || decide (yearOf g d = year - 2))) = 0
    · rw [List.countP_eq_zero] at hD
      intro d hd hnode
      have hdd := hD d hd
      simp only [hnode, Bool.true_and, Bool.or_eq_true, decide_eq_true_eq] at hdd
      push_neg at hdd
      exact hdd
    · rw [if_neg hD] at h
      simp at h
  · intro hall
    have hD : dois.countP (fun d => hasNodeB g d &&
        (decide (yearOf g d = year - 1) || decide (yearOf g d = year - 2))) = 0 := by
      rw [List.countP_eq_zero]
      intro d hd
      by_cases hn : hasNodeB g d = true
      · obtain ⟨h1, h2⟩ := hall d hd hn
        simp [hn, h1, h2]
      · have hnf : hasNodeB g d = false := by
          cases h' : hasNodeB g d
          · rfl
          · exact absurd h' hn
        simp [hnf]
    rw [if_pos hD]

theorem C4_impact_factor_witness :
    do_compute_impact_factor
      ⟨[("a", some "2020-01"), ("b", some "2019-07"), ("c", some "2018")],
       [("a", "b", some "P1Y"), ("a", "c", some "P2Y")]⟩
      ["b", "c", "zz"] 2020 = .ok (some (1 : ℚ)) := by
  have h := (C4_impact_factor
      ⟨[("a", some "2020-01"), ("b", some "2019-07"), ("c", some "2018")],
       [("a", "b", some "P1Y"), ("a", "c", some "P2Y")]⟩
      ["b", "c", "zz"] 2020 (by decide) (by decide) (by decide)).1
  have hD : (["b", "c", "zz"] : List String).countP (fun d =>
      hasNodeB ⟨[("a", some "2020-01"), ("b", some "2019-07"), ("c", some "2018")],
        [("a", "b", some "P1Y"), ("a", "c", some "P2Y")]⟩ d &&
      (decide (yearOf ⟨[("a", some "2020-01"), ("b", some "2019-07"), ("c", some "2018")],
        [("a", "b", some "P1Y"), ("a", "c", some "P2Y")]⟩ d = 2020 - 1) ||
       decide (yearOf ⟨[("a", some "2020-01"), ("b", some "2019-07"), ("c", some "2018")],
        [("a", "b", some "P1Y"), ("a", "c", some "P2Y")]⟩ d = 2020 - 2))) = 2 := by decide
  have hN : (⟨[("a", some "2020-01"), ("b", some "2019-07"), ("c", some "2018")],
      [("a", "b", some "P1Y"), ("a", "c", some "P2Y")]⟩ : DiGraph).edges.countP (fun e =>
      decide (e.2.1 ∈ (["b", "c", "zz"] : List String)) &&
      decide (yearOf ⟨[("a", some "2020-01"), ("b", some "2019-07"), ("c", some "2018")],
        [("a", "b", some "P1Y"), ("a", "c", some "P2Y")]⟩ e.1 = 2020)) = 2 := by decide
  rw [h, hN, hD]
  norm_num

theorem filterEdgesM_eq (g : DiGraph) (toks : List QTok) (field : String)
    (l : List (String × String × Option String))
    (h : ∀ e ∈ l, (fieldValE g field e).isOk = true) :
    filterEdgesM g toks field l =
      .ok ((l.filter (edgeMatchesB g toks field)).map (fun e => (e.1, e.2.1))) := by
  induction l with
  | nil => rfl
  | cons e es ih =>
    obtain ⟨v, hv⟩ := (except_isOk_iff _).mp (h e (List.mem_cons_self e es))
    have hrest := ih (fun e' he' => h e' (List.mem_cons_of_mem e he'))
    have hm : edgeMatchesB g toks field e = evaluate_query_string toks v := by
      unfold edgeMatchesB
      rw [hv]
    simp only [filterEdgesM, hv, hrest, List.filter_cons, hm]
    by_cases hq : evaluate_query_string toks v = true
    · simp [hq]
    · simp [hq]

theorem get_filtered_list_eq (g : DiGraph) (toks : List QTok) (field : String)
    (hattr : attrsOkB g field = true) :
    get_filtered_list g toks field =
      .ok ((g.edges.filter (edgeMatchesB g toks field)).map (fun e => (e.1, e.2.1))) := by
  unfold get_filtered_list
  by_cases hf : field = "citing" ∨ field = "cited" ∨ field = "creation" ∨ field = "timespan"
  · rw [if_pos hf]
    apply filterEdgesM_eq
    intro e he
    exact List.all_eq_true.mp hattr e he
  · rw [if_neg hf]
    push_neg at hf
    have hall : ∀ e ∈ g.edges, edgeMatchesB g toks field e = false := by
      intro e he
      unfold edgeMatchesB fieldValE
      rw [if_neg hf.1, if_neg hf.2.1, if_neg hf.2.2.1, if_neg hf.2.2.2]
    have hfe : g.edges.filter (edgeMatchesB g toks field) = [] := by
      rw [List.filter_eq_nil_iff]
      intro e he
      simp [hall e he]
    rw [hfe]
    rfl

theorem mem_kept_iff (g : DiGraph) (toks : List QTok) (field : String)
    (hnd : (g.edges.map (fun e => (e.1, e.2.1))).Nodup)
    (e : String × String × Option String) (he : e ∈ g.edges) :
    ((e.1, e.2.1) ∈ (g.edges.filter (edgeMatchesB g toks field)).map
        (fun e => (e.1, e.2.1))) ↔ edgeMatchesB g toks field e = true := by
  simp only [List.mem_map, List.mem_filter]
  constructor
  · rintro ⟨e', ⟨he', hm⟩, heq⟩
    have hee : e' = e := List.inj_on_of_nodup_map hnd he' he heq
    subst hee
    exact hm
  · intro hm
    exact ⟨e, ⟨he, hm⟩, rfl⟩

/-- C8: query evaluation never aborts on a bad field value: the filtered
list is always an `ok` result, each edge's inclusion is decided by its
own field value alone, and an edge whose substituted value makes the
inner evaluation raise is treated as a non-match and excluded, leaving
every other edge's fate unchanged.  (Hypotheses: the attributes the
selected field reads exist — the attribute lookup itself sits outside
the `try` — and edge pairs are unique, a `networkx` invariant.) -/
theorem C8_robust_evaluation (g : DiGraph) (toks : List QTok) (field : String)
    (hattr : attrsOkB g field = true)
    (hnd : (g.edges.map (fun e => (e.1, e.2.1))).Nodup) :
    ∃ kept, get_filtered_list g toks field = .ok kept ∧
      (∀ e ∈ g.edges, ((e.1, e.2.1) ∈ kept ↔ edgeMatchesB g toks field e = true)) ∧
      (∀ e ∈ g.edges, ∀ v, fieldValE g field e = .ok v →
        evalInner toks v.data = .error () →
          evaluate_query_string toks v = false ∧ (e.1, e.2.1) ∉ kept) := by
  refine ⟨(g.edges.filter (edgeMatchesB g toks field)).map (fun e => (e.1, e.2.1)),
    get_filtered_list_eq g toks field hattr, ?_, ?_⟩
  · intro e he
    exact mem_kept_iff g toks field hnd e he
  · intro e he v hv herr
    have hfalse : evaluate_query_string toks v = false := by
      unfold evaluate_query_string
      rw [herr]
    refine ⟨hfalse, ?_⟩
    intro hmem
    have := (mem_kept_iff g toks field hnd e he).mp hmem
    unfold edgeMatchesB at this
    rw [hv] at this
    simp [hfalse] at this

theorem C8_robust_evaluation_witness :
    (∃ kept, get_filtered_list
        ⟨[("a", some "2020"), ("b", some "2019")], [("a", "b", some "P1Y")]⟩
        [.atom (.bare "x".data)] "citing" = .ok kept ∧
      (∀ e ∈ (⟨[("a", some "2020"), ("b", some "2019")],
          [("a", "b", some "P1Y")]⟩ : DiGraph).edges,
        ((e.1, e.2.1) ∈ kept ↔ edgeMatchesB
          ⟨[("a", some "2020"), ("b", some "2019")], [("a", "b", some "P1Y")]⟩
          [.atom (.bare "x".data)] "citing" e = true)) ∧
      (∀ e ∈ (⟨[("a", some "2020"), ("b", some "2019")],
          [("a", "b", some "P1Y")]⟩ : DiGraph).edges, ∀ v,
        fieldValE ⟨[("a", some "2020"), ("b", some "2019")],
          [("a", "b", some "P1Y")]⟩ "citing" e = .ok v →
        evalInner [.atom (.bare "x".data)] v.data = .error () →
          evaluate_query_string [.atom (.bare "x".data)] v = false ∧
            (e.1, e.2.1) ∉ kept)) :=
  C8_robust_evaluation
    ⟨[("a", some "2020"), ("b", some "2019")], [("a", "b", some "P1Y")]⟩
    [.atom (.bare "x".data)] "citing" (by decide) (by decide)

theorem viewGraph_edges (g : DiGraph) (kept : List (String × String)) :
    (viewGraph g kept).edges =
      g.edges.filter (fun e => decide ((e.1, e.2.1) ∈ kept)) := rfl

theorem viewGraph_nodes (g : DiGraph) (kept : List (String × String)) :
    (viewGraph g kept).nodes =
      g.nodes.filter (fun p => ((viewGraph g kept).edges).any
        (fun e => decide (e.1 = p.1) || decide (e.2.1 = p.1))) := rfl

theorem view_of_get_filtered (g : DiGraph) (toks : List QTok) (field : String)
    (hattr : attrsOkB g field = true)
    (hnd : (g.edges.map (fun e => (e.1, e.2.1))).Nodup)
    (kept : List (String × String)) (h : get_filtered_list g toks field = .ok kept) :
    (viewGraph g kept).edges = g.edges.filter (edgeMatchesB g toks field) ∧
    (∀ p, p ∈ (viewGraph g kept).nodes ↔ p ∈ g.nodes ∧
      ∃ e ∈ (viewGraph g kept).edges, e.1 = p.1 ∨ e.2.1 = p.1) := by
  have hk : kept = (g.edges.filter (edgeMatchesB g toks field)).map (fun e => (e.1, e.2.1)) := by
    have h2 := h.symm.trans (get_filtered_list_eq g toks field hattr)
    simpa using h2
  have hedges : (viewGraph g kept).edges = g.edges.filter (edgeMatchesB g toks field) := by
    rw [viewGraph_edges]
    apply List.filter_congr
    intro e he
    rw [hk]
    by_cases hm : edgeMatchesB g toks field e = true
    · rw [hm]
      simp only [decide_eq_true_eq]
      exact (mem_kept_iff g toks field hnd e he).mpr hm
    · have hmem : (e.1, e.2.1) ∉ (g.edges.filter (edgeMatchesB g toks field)).map
          (fun e => (e.1, e.2.1)) :=
        fun hx => hm ((mem_kept_iff g toks field hnd e he).mp hx)
      have hmf : edgeMatchesB g toks field e = false := by
        cases h' : edgeMatchesB g toks field e
        · rfl
        · exact absurd h' hm
      rw [hmf]
      simpa using hmem
  refine ⟨hedges, ?_⟩
  intro p
  rw [viewGraph_nodes]
  simp only [List.mem_filter, List.any_eq_true, Bool.or_eq_true, decide_eq_true_eq,
    Bool.and_eq_true]

/-- C9 counterexample: `do_search`/`do_filter_by_value` return an
`edge_subgraph` **view** of the source graph, not a fresh copy: the set
of retained edges is fixed, but attributes are read live from the
source.  Mutating the source node's `creation` attribute after the
search changes the graph the result denotes, so query results are not
independent of later mutation, contradicting the claim's
"constructed as a fresh new graph value — never … an aliasing view". -/
theorem C9_counterexample :
    do_search ⟨[("a", some "2000"), ("b", some "2000")], [("a", "b", some "P1Y")]⟩
      "a*" "citing" = .ok [("a", "b")] ∧
    viewGraph (setNodeCreation
        ⟨[("a", some "2000"), ("b", some "2000")], [("a", "b", some "P1Y")]⟩ "a" "1999")
        [("a", "b")] ≠
      viewGraph ⟨[("a", some "2000"), ("b", some "2000")], [("a", "b", some "P1Y")]⟩
        [("a", "b")] := by
  decide

/-- C9 amended: the graph denoted by the result of `do_search` or
`do_filter_by_value` (at the state of the source graph it was built
from) is the induced subgraph over exactly the matching edges — its
edge list is the source's edge list filtered by the compiled
per-edge predicate, and its nodes are exactly the source nodes
incident to a retained edge — but it is a read-only aliasing view of
the source graph, not a fresh value, so it tracks later mutation of
the source's attributes (see the counterexample). -/
theorem C9_amended_induced_view (g : DiGraph) (query field : String)
    (hattr : attrsOkB g field = true)
    (hnd : (g.edges.map (fun e => (e.1, e.2.1))).Nodup) :
    (∀ kept, do_search g query field = .ok kept →
      (viewGraph g kept).edges =
        g.edges.filter (edgeMatchesB g (translate_query_string_for_search query) field) ∧
      (∀ p, p ∈ (viewGraph g kept).nodes ↔ p ∈ g.nodes ∧
        ∃ e ∈ (viewGraph g kept).edges, e.1 = p.1 ∨ e.2.1 = p.1)) ∧
    (∀ toks kept, translate_query_string_for_filter query = .ok toks →
      do_filter_by_value g query field = .ok kept →
      (viewGraph g kept).edges = g.edges.filter (edgeMatchesB g toks field) ∧
      (∀ p, p ∈ (viewGraph g kept).nodes ↔ p ∈ g.nodes ∧
        ∃ e ∈ (viewGraph g kept).edges, e.1 = p.1 ∨ e.2.1 = p.1)) := by
  constructor
  · intro kept h
    exact view_of_get_filtered g _ field hattr hnd kept h
  · intro toks kept htr h
    unfold do_filter_by_value at h
    rw [htr] at h
    exact view_of_get_filtered g toks field hattr hnd kept h

theorem C9_amended_induced_view_witness :
    (viewGraph ⟨[("a", some "2000"), ("b", some "2000")], [("a", "b", some "P1Y")]⟩
        [("a", "b")]).edges =
      (⟨[("a", some "2000"), ("b", some "2000")],
        [("a", "b", some "P1Y")]⟩ : DiGraph).edges.filter
        (edgeMatchesB ⟨[("a", some "2000"), ("b", some "2000")], [("a", "b", some "P1Y")]⟩
          (translate_query_string_for_search "a*") "citing") :=
  (((C9_amended_induced_view
      ⟨[("a", some "2000"), ("b", some "2000")], [("a", "b", some "P1Y")]⟩
      "a*" "citing" (by decide) (by decide)).1) [("a", "b")] (by decide)).1

theorem stripLitCh_sublist (p cs r : List Char) (h : stripLitCh p cs = some r) :
    r.Sublist cs := by
  induction p generalizing cs with
  | nil =>
    simp [stripLitCh] at h
    subst h
    exact List.Sublist.refl _
  | cons a ps ih =>
    cases cs with
    | nil => simp [stripLitCh] at h
    | cons c cs2 =>
      unfold stripLitCh at h
      split at h
      · exact (ih cs2 h).cons c
      · simp at h

theorem gapStrip_mem_sublist (p cs cs2 : List Char) (h : cs2 ∈ gapStrip p cs) :
    cs2.Sublist cs := by
  induction cs with
  | nil =>
    unfold gapStrip at h
    revert h
    cases hs : stripLitCh p [] with
    | some r =>
      intro h
      simp at h
      subst h
      exact stripLitCh_sublist p [] _ hs
    | none => intro h; simp at h
  | cons c rest ih =>
    unfold gapStrip at h
    rw [List.mem_append] at h
    rcases h with h | h
    · revert h
      cases hs : stripLitCh p (c :: rest) with
      | some r =>
        intro h
        simp at h
        subst h
        exact stripLitCh_sublist _ _ _ hs
      | none => intro h; simp at h
    · revert h
      by_cases hc : c ≠ '\n'
      · rw [if_pos hc]
        intro h
        exact (ih h).cons c
      · rw [if_neg hc]
        intro h
        simp at h

theorem charValOpt_digitChar10 : ∀ n : Nat, n < 10 →
    charValOpt (digitChar10 n) = some n := by decide

theorem charValOpt_lt (c : Char) (k : Nat) (h : charValOpt c = some k) : k < 10 := by
  unfold charValOpt at h
  split_ifs at h <;> simp_all <;> omega

theorem digitChar10_charValOpt (c : Char) (k : Nat) (h : charValOpt c = some k) :
    digitChar10 k = c := by
  unfold charValOpt at h
  split_ifs at h <;> simp_all <;> subst_vars <;> rfl

theorem daysInMonth_pos (y m : Int) : 1 ≤ daysInMonth y m := by
  unfold daysInMonth
  split_ifs <;> norm_num

theorem digits4_recon (n : Nat) (h : n ≤ 9999) :
    1000 * (n / 1000 % 10) + 100 * (n / 100 % 10) + 10 * (n / 10 % 10) + n % 10 = n := by
  omega

theorem digits2_recon (n : Nat) (h : n ≤ 99) :
    10 * (n / 10 % 10) + n % 10 = n := by
  omega

theorem addYears_valid (d : PyDate) (e : Int) (d' : PyDate)
    (hv : validDate d) (h : addYears d e = .ok d') : validDate d' := by
  obtain ⟨h1, h2, h3, h4, h5, h6⟩ := hv
  unfold addYears at h
  split at h
  · next hr =>
    simp only [Except.ok.injEq] at h
    subst h
    refine ⟨hr.1, hr.2, h3, h4, ?_, ?_⟩
    · simp only
      have := daysInMonth_pos (d.year + e) d.month
      omega
    · simp only
      exact min_le_right _ _
  · simp at h

theorem addYears_ok_shape (d : PyDate) (e : Int) (d' : PyDate)
    (h : addYears d e = .ok d') (hnc : d.day ≤ daysInMonth (d.year + e) d.month) :
    d' = ⟨d.year + e, d.month, d.day⟩ ∧ 1 ≤ d.year + e ∧ d.year + e ≤ 9999 := by
  unfold addYears at h
  split at h
  · next hr =>
    simp only [Except.ok.injEq] at h
    subst h
    refine ⟨?_, hr.1, hr.2⟩
    simp [min_eq_left hnc]
  · simp at h

theorem addMonths_valid (d : PyDate) (e : Int) (d' : PyDate)
    (hv : validDate d) (h : addMonths d e = .ok d') : validDate d' := by
  obtain ⟨h1, h2, h3, h4, h5, h6⟩ := hv
  unfold addMonths at h
  split at h
  · next hr =>
    simp only [Except.ok.injEq] at h
    subst h
    have hm1 : 0 ≤ Int.emod (12 * d.year + (d.month - 1) + e) 12 := Int.emod_nonneg _ (by norm_num)
    have hm2 : Int.emod (12 * d.year + (d.month - 1) + e) 12 < 12 :=
      Int.emod_lt_of_pos _ (by norm_num)
    refine ⟨hr.1, hr.2, by simp only; omega, by simp only; omega, ?_, ?_⟩
    · simp only
      have := daysInMonth_pos (Int.ediv (12 * d.year + (d.month - 1) + e) 12)
        (Int.emod (12 * d.year + (d.month - 1) + e) 12 + 1)
      omega
    · simp only
      exact min_le_right _ _
  · simp at h

theorem addMonths_ok_shape (d : PyDate) (e : Int) (d' : PyDate)
    (h : addMonths d e = .ok d')
    (hnc : d.day ≤ daysInMonth (Int.ediv (12 * d.year + (d.month - 1) + e) 12)
      (Int.emod (12 * d.year + (d.month - 1) + e) 12 + 1)) :
    d' = ⟨Int.ediv (12 * d.year + (d.month - 1) + e) 12,
          Int.emod (12 * d.year + (d.month - 1) + e) 12 + 1, d.day⟩ ∧
      1 ≤ Int.ediv (12 * d.year + (d.month - 1) + e) 12 ∧
      Int.ediv (12 * d.year + (d.month - 1) + e) 12 ≤ 9999 := by
  unfold addMonths at h
  split at h
  · next hr =>
    simp only [Except.ok.injEq] at h
    subst h
    refine ⟨?_, hr.1, hr.2⟩
    simp [min_eq_left hnc]
  · simp at h

theorem daysInMonth_le31 (y m : Int) : daysInMonth y m ≤ 31 := by
  unfold daysInMonth
  split_ifs <;> norm_num

theorem parseIso_ok_elim (s : String) (d0 : PyDate) (hp : parseIso s = .ok d0) :
    validDate d0 ∧ s.data = renderDate d0 := by
  unfold parseIso at hp
  split at hp
  · next a b c d s1 e f s2 g h2 heq =>
    split at hp
    · next hsep =>
      obtain ⟨hs1, hs2⟩ := hsep
      subst hs1; subst hs2
      split at hp
      · next va vb vc vd ve vf vg vh hqa hqb hqc hqd hqe hqf hqg hqh =>
        split at hp
        · next hcond =>
          simp only [Except.ok.injEq] at hp
          have hva := charValOpt_lt _ _ hqa
          have hvb := charValOpt_lt _ _ hqb
          have hvc := charValOpt_lt _ _ hqc
          have hvd := charValOpt_lt _ _ hqd
          have hve := charValOpt_lt _ _ hqe
          have hvf := charValOpt_lt _ _ hqf
          have hvg := charValOpt_lt _ _ hqg
          have hvh := charValOpt_lt _ _ hqh
          obtain ⟨hc1, hc2, hc3, hc4, hc5⟩ := hcond
          subst hp
          constructor
          · refine ⟨hc1, ?_, hc2, hc3, hc4, hc5⟩
            show ((1000 * va + 100 * vb + 10 * vc + vd : Nat) : Int) ≤ 9999
            have hbound : (1000 * va + 100 * vb + 10 * vc + vd : Nat) ≤ 9999 := by omega
            exact_mod_cast hbound
          · rw [heq]
            unfold renderDate
            simp only [Int.toNat_natCast]
            have ea : (1000 * va + 100 * vb + 10 * vc + vd) / 1000 % 10 = va := by omega
            have eb : (1000 * va + 100 * vb + 10 * vc + vd) / 100 % 10 = vb := by omega
            have ec : (1000 * va + 100 * vb + 10 * vc + vd) / 10 % 10 = vc := by omega
            have ed : (1000 * va + 100 * vb + 10 * vc + vd) % 10 = vd := by omega
            have ee : (10 * ve + vf) / 10 % 10 = ve := by omega
            have ef : (10 * ve + vf) % 10 = vf := by omega
            have eg : (10 * vg + vh) / 10 % 10 = vg := by omega
            have eh : (10 * vg + vh) % 10 = vh := by omega
            rw [ea, eb, ec, ed, ee, ef, eg, eh]
            rw [digitChar10_charValOpt a va hqa, digitChar10_charValOpt b vb hqb,
              digitChar10_charValOpt c vc hqc, digitChar10_charValOpt d vd hqd,
              digitChar10_charValOpt e ve hqe, digitChar10_charValOpt f vf hqf,
              digitChar10_charValOpt g vg hqg, digitChar10_charValOpt h2 vh hqh]
        · simp at hp
      · simp at hp
    · simp at hp
  · simp at hp

theorem renderDate_valid_parse (d : PyDate) (hv : validDate d) :
    parseIso (String.mk (renderDate d)) = .ok d := by
  obtain ⟨h1, h2, h3, h4, h5, h6⟩ := hv
  have hy : ((d.year.toNat : Nat) : Int) = d.year := Int.toNat_of_nonneg (by omega)
  have hm : ((d.month.toNat : Nat) : Int) = d.month := Int.toNat_of_nonneg (by omega)
  have hdle := daysInMonth_le31 d.year d.month
  have hdd : ((d.day.toNat : Nat) : Int) = d.day := Int.toNat_of_nonneg (by omega)
  have hy99 : d.year.toNat ≤ 9999 := by omega
  have hm99 : d.month.toNat ≤ 99 := by omega
  have hd99 : d.day.toNat ≤ 99 := by omega
  have e1 : charValOpt (digitChar10 (d.year.toNat / 1000 % 10)) =
      some (d.year.toNat / 1000 % 10) := charValOpt_digitChar10 _ (Nat.mod_lt _ (by norm_num))
  have e2 : charValOpt (digitChar10 (d.year.toNat / 100 % 10)) =
      some (d.year.toNat / 100 % 10) := charValOpt_digitChar10 _ (Nat.mod_lt _ (by norm_num))
  have e3 : charValOpt (digitChar10 (d.year.toNat / 10 % 10)) =
      some (d.year.toNat / 10 % 10) := charValOpt_digitChar10 _ (Nat.mod_lt _ (by norm_num))
  have e4 : charValOpt (digitChar10 (d.year.toNat % 10)) =
      some (d.year.toNat % 10) := charValOpt_digitChar10 _ (Nat.mod_lt _ (by norm_num))
  have e5 : charValOpt (digitChar10 (d.month.toNat / 10 % 10)) =
      some (d.month.toNat / 10 % 10) := charValOpt_digitChar10 _ (Nat.mod_lt _ (by norm_num))
  have e6 : charValOpt (digitChar10 (d.month.toNat % 10)) =
      some (d.month.toNat % 10) := charValOpt_digitChar10 _ (Nat.mod_lt _ (by norm_num))
  have e7 : charValOpt (digitChar10 (d.day.toNat / 10 % 10)) =
      some (d.day.toNat / 10 % 10) := charValOpt_digitChar10 _ (Nat.mod_lt _ (by norm_num))
  have e8 : charValOpt (digitChar10 (d.day.toNat % 10)) =
      some (d.day.toNat % 10) := charValOpt_digitChar10 _ (Nat.mod_lt _ (by norm_num))
  simp only [parseIso, renderDate]
  simp only [and_self, if_true]
  simp only [e1, e2, e3, e4, e5, e6, e7, e8]
  rw [digits4_recon _ hy99, digits2_recon _ hm99, digits2_recon _ hd99]
  rw [hy, hm, hdd]
  rw [if_pos ⟨h1, h3, h4, h5, h6⟩]

theorem digitChar10_eq_zero (x : Nat) (hx : x < 10) (h : '0' = digitChar10 x) : x = 0 := by
  have h2 := charValOpt_digitChar10 x hx
  rw [← h] at h2
  have h3 : (some 0 : Option Nat) = some x := by rw [← h2]; rfl
  simpa using h3.symm

theorem digitChar10_eq_one (x : Nat) (hx : x < 10) (h : '1' = digitChar10 x) : x = 1 := by
  have h2 := charValOpt_digitChar10 x hx
  rw [← h] at h2
  have h3 : (some 1 : Option Nat) = some x := by rw [← h2]; rfl
  simpa using h3.symm

theorem parse_padRef_props (ref : String) (d0 : PyDate) (L : Nat)
    (hL : L = 4 ∨ L = 7 ∨ L = 10) (hlen : ref.length = L)
    (hp : parseIso (padRef ref) = .ok d0) :
    validDate d0 ∧ ref = String.mk ((renderDate d0).take L) ∧
      (L = 7 → d0.day = 1) ∧ (L = 4 → (d0.month = 1 ∧ d0.day = 1)) := by
  obtain ⟨hv, hdata⟩ := parseIso_ok_elim _ _ hp
  obtain ⟨hv1, hv2, hv3, hv4, hv5, hv6⟩ := hv
  have hd31 := daysInMonth_le31 d0.year d0.month
  rcases hL with h4 | h7 | h10
  · subst h4
    have hpad : padRef ref = ref ++ "-01-01" := by
      unfold padRef
      rw [hlen]
      norm_num
    rw [hpad] at hdata
    have happ : (ref ++ "-01-01").data = ref.data ++ ['-', '0', '1', '-', '0', '1'] := rfl
    rw [happ] at hdata
    have hrl : ref.data.length = 4 := hlen
    have hrd : ref.data = (renderDate d0).take 4 := by
      rw [← hdata, ← hrl, List.take_left]
    have hsuf : ['-', '0', '1', '-', '0', '1'] = (renderDate d0).drop 4 := by
      rw [← hdata, ← hrl, List.drop_left]
    have hdrop : (renderDate d0).drop 4 =
        ['-', digitChar10 (d0.month.toNat / 10 % 10), digitChar10 (d0.month.toNat % 10),
         '-', digitChar10 (d0.day.toNat / 10 % 10), digitChar10 (d0.day.toNat % 10)] := rfl
    rw [hdrop] at hsuf
    simp at hsuf
    obtain ⟨hm0, hm1, hd0, hd1⟩ := hsuf
    have em0 := digitChar10_eq_zero _ (Nat.mod_lt _ (by norm_num)) hm0
    have em1 := digitChar10_eq_one _ (Nat.mod_lt _ (by norm_num)) hm1
    have ed0 := digitChar10_eq_zero _ (Nat.mod_lt _ (by norm_num)) hd0
    have ed1 := digitChar10_eq_one _ (Nat.mod_lt _ (by norm_num)) hd1
    refine ⟨⟨hv1, hv2, hv3, hv4, hv5, hv6⟩, ?_, by norm_num, fun _ => ⟨by omega, by omega⟩⟩
    rw [← hrd]
  · subst h7
    have hpad : padRef ref = ref ++ "-01" := by
      unfold padRef
      rw [hlen]
      norm_num
    rw [hpad] at hdata
    have happ : (ref ++ "-01").data = ref.data ++ ['-', '0', '1'] := rfl
    rw [happ] at hdata
    have hrl : ref.data.length = 7 := hlen
    have hrd : ref.data = (renderDate d0).take 7 := by
      rw [← hdata, ← hrl, List.take_left]
    have hsuf : ['-', '0', '1'] = (renderDate d0).drop 7 := by
      rw [← hdata, ← hrl, List.drop_left]
    have hdrop : (renderDate d0).drop 7 =
        ['-', digitChar10 (d0.day.toNat / 10 % 10), digitChar10 (d0.day.toNat % 10)] := rfl
    rw [hdrop] at hsuf
    simp at hsuf
    have ed0 := digitChar10_eq_zero _ (Nat.mod_lt _ (by norm_num)) hsuf.1
    have ed1 := digitChar10_eq_one _ (Nat.mod_lt _ (by norm_num)) hsuf.2
    refine ⟨⟨hv1, hv2, hv3, hv4, hv5, hv6⟩, ?_, fun _ => by omega, by norm_num⟩
    rw [← hrd]
  · subst h10
    have hpad : padRef ref = ref := by
      unfold padRef
      rw [hlen]
      norm_num
    rw [hpad] at hdata
    refine ⟨⟨hv1, hv2, hv3, hv4, hv5, hv6⟩, ?_, by norm_num, by norm_num⟩
    have htake : (renderDate d0).take 10 = renderDate d0 := List.take_length (renderDate d0)
    rw [htake, ← hdata]

theorem parse_pad_render_take (d2 : PyDate) (hv : validDate d2) (L : Nat)
    (hL : L = 4 ∨ L = 7 ∨ L = 10)
    (h7 : L = 7 → d2.day = 1) (h4 : L = 4 → (d2.month = 1 ∧ d2.day = 1)) :
    parseIso (padRef (String.mk ((renderDate d2).take L))) = .ok d2 := by
  obtain ⟨yy, mm, dd⟩ := d2
  rcases hL with h | h | h
  · subst h
    obtain ⟨hm1, hd1⟩ := h4 rfl
    have hm1' : mm = 1 := hm1
    have hd1' : dd = 1 := hd1
    subst hm1'; subst hd1'
    have hpad : padRef (String.mk ((renderDate ⟨yy, 1, 1⟩).take 4)) =
        String.mk ((renderDate ⟨yy, 1, 1⟩).take 4) ++ "-01-01" := rfl
    rw [hpad]
    have hlist : (renderDate ⟨yy, 1, 1⟩).take 4 ++
        ('-' :: '0' :: '1' :: '-' :: '0' :: '1' :: []) = renderDate ⟨yy, 1, 1⟩ := by
      simp [renderDate, digitChar10]
    have heq : String.mk ((renderDate ⟨yy, 1, 1⟩).take 4) ++ "-01-01" =
        String.mk (renderDate ⟨yy, 1, 1⟩) := by
      show String.mk ((renderDate ⟨yy, 1, 1⟩).take 4 ++
        ('-' :: '0' :: '1' :: '-' :: '0' :: '1' :: [])) = _
      rw [hlist]
    rw [heq]
    exact renderDate_valid_parse _ hv
  · subst h
    have hd1' : dd = 1 := h7 rfl
    subst hd1'
    have hpad : padRef (String.mk ((renderDate ⟨yy, mm, 1⟩).take 7)) =
        String.mk ((renderDate ⟨yy, mm, 1⟩).take 7) ++ "-01" := rfl
    rw [hpad]
    have hlist : (renderDate ⟨yy, mm, 1⟩).take 7 ++
        ('-' :: '0' :: '1' :: []) = renderDate ⟨yy, mm, 1⟩ := by
      simp [renderDate, digitChar10]
    have heq : String.mk ((renderDate ⟨yy, mm, 1⟩).take 7) ++ "-01" =
        String.mk (renderDate ⟨yy, mm, 1⟩) := by
      show String.mk ((renderDate ⟨yy, mm, 1⟩).take 7 ++
        ('-' :: '0' :: '1' :: [])) = _
      rw [hlist]
    rw [heq]
    exact renderDate_valid_parse _ hv
  · subst h
    have htake : (renderDate ⟨yy, mm, dd⟩).take 10 = renderDate ⟨yy, mm, dd⟩ := by
      simp [renderDate]
    rw [htake]
    have hpad : padRef (String.mk (renderDate ⟨yy, mm, dd⟩)) =
        String.mk (renderDate ⟨yy, mm, dd⟩) := rfl
    rw [hpad]
    exact renderDate_valid_parse _ hv

theorem timesPipeline_dashP (body : List Char) :
    timesPipeline ('-' :: 'P' :: body) =
      match timesPipeline ('P' :: body) with
      | .error e => .error e
      | .ok vals => .ok (vals.map (fun v => -v)) := by
  have hid : (((('-' :: 'P' :: body).map colonize).take
        (('-' :: 'P' :: body).length - 1)).drop 1).filter (fun c => c ≠ 'P') =
      (((('P' :: body).map colonize).take
        (('P' :: body).length - 1)).drop 1).filter (fun c => c ≠ 'P') := by
    cases body with
    | nil => rfl
    | cons c cs =>
      simp only [List.map_cons, List.length_cons]
      have c1 : colonize '-' = '-' := rfl
      have c2 : colonize 'P' = 'P' := rfl
      rw [c1, c2]
      simp only [Nat.add_sub_cancel]
      simp [List.filter_cons]
  simp only [timesPipeline]
  rw [hid]
  cases hm : (splitOnCh ':' ((((('P' :: body).map colonize).take
      (('P' :: body).length - 1)).drop 1).filter (fun c => c ≠ 'P'))).mapM pyIntChars with
  | error e => simp [hm]
  | ok vals =>
    simp [hm, List.map_map]

theorem timesOf_invert (desc : String) (ts : List Int)
    (hshape : descShapeB desc = true) (h : timesOf desc = .ok ts) :
    timesOf (invertDesc desc) = .ok (ts.map (fun t => -t)) := by
  simp only [descShapeB, Bool.or_eq_true, Bool.and_eq_true, decide_eq_true_eq] at hshape
  rcases hshape with h1 | ⟨h1, h2⟩
  · obtain ⟨body, hbody⟩ : ∃ body, desc.data = 'P' :: body := by
      cases hd : desc.data with
      | nil => rw [hd] at h1; simp at h1
      | cons c cs =>
        rw [hd] at h1
        simp at h1
        exact ⟨cs, by rw [h1]⟩
    have h' : timesPipeline ('P' :: body) = .ok ts := by
      have he : timesOf desc = timesPipeline desc.data := rfl
      rw [he, hbody] at h
      exact h
    have hgoal : timesOf (invertDesc desc) = timesPipeline ('-' :: 'P' :: body) := by
      unfold timesOf invertDesc
      rw [hbody]
      simp
    rw [hgoal, timesPipeline_dashP, h']
  · obtain ⟨body, hbody⟩ : ∃ body, desc.data = '-' :: 'P' :: body := by
      cases hd : desc.data with
      | nil => rw [hd] at h1; simp at h1
      | cons c cs =>
        rw [hd] at h1 h2
        simp at h1
        cases cs with
        | nil => simp at h2
        | cons c2 cs2 =>
          simp at h2
          exact ⟨cs2, by rw [h1, h2]⟩
    have h' : timesPipeline ('-' :: 'P' :: body) = .ok ts := by
      have he : timesOf desc = timesPipeline desc.data := rfl
      rw [he, hbody] at h
      exact h
    have hgoal : timesOf (invertDesc desc) = timesPipeline ('P' :: body) := by
      unfold timesOf invertDesc
      rw [hbody]
      simp
    rw [timesPipeline_dashP] at h'
    cases hm : timesPipeline ('P' :: body) with
    | error e => simp [hm] at h'
    | ok vals =>
      simp [hm] at h'
      rw [hgoal, hm, ← h', List.map_map]
      simp

theorem resolveCore_two (d d1 : PyDate) (a b : Int)
    (h : addYears d a = .ok d1) :
    resolveCore d [a, b] = addMonths d1 b := by
  show (match addYears d a with
        | .error e => .error e
        | .ok x => addMonths x b) = addMonths d1 b
  rw [h]

theorem resolveCore_two_error (d : PyDate) (a b : Int) (e : PyErr)
    (h : addYears d a = .error e) :
    resolveCore d [a, b] = .error e := by
  show (match addYears d a with
        | .error e2 => (.error e2 : Except PyErr PyDate)
        | .ok x => addMonths x b) = .error e
  rw [h]

/-- Round trip for a pure year shift: applying the opposite year shift to
the (unclamped) result recovers the original valid date. -/
theorem resolveY_roundtrip (d0 d2 : PyDate) (t0 : Int)
    (hv0 : validDate d0)
    (hcore : resolveCore d0 [t0] = .ok d2)
    (hcf1 : d0.day ≤ daysInMonth (d0.year + t0) d0.month) :
    d2.year = d0.year + t0 ∧ d2.month = d0.month ∧ d2.day = d0.day ∧
      resolveCore d2 [-t0] = .ok d0 := by
  obtain ⟨y0, m0, dd0⟩ := d0
  obtain ⟨hv1, hv2, hv3, hv4, hv5, hv6⟩ := hv0
  have hay : addYears ⟨y0, m0, dd0⟩ t0 = .ok d2 := hcore
  obtain ⟨y2, m2, dd2⟩ := d2
  unfold addYears at hay
  split at hay
  · next hr =>
    simp only [Except.ok.injEq, PyDate.mk.injEq] at hay
    obtain ⟨hy2, hm2, hd2⟩ := hay
    have hnc : dd0 ≤ daysInMonth (y0 + t0) m0 := hcf1
    rw [min_eq_left hnc] at hd2
    refine ⟨hy2.symm, hm2.symm, hd2.symm, ?_⟩
    show addYears ⟨y2, m2, dd2⟩ (-t0) = .ok ⟨y0, m0, dd0⟩
    subst hy2; subst hm2; subst hd2
    unfold addYears
    have he : y0 + t0 + -t0 = y0 := by ring
    rw [he]
    rw [if_pos ⟨hv1, hv2⟩]
    have hv6' : dd0 ≤ daysInMonth y0 m0 := hv6
    rw [min_eq_left hv6']
  · simp at hay

/-- Round trip for a year-then-month shift: applying the opposite shifts
(years first, then months, as the resolver always does) to the unclamped
result recovers the original valid date, provided the intermediate
backward year shift stays in range and does not clamp. -/
theorem resolveYM_roundtrip (d0 d2 : PyDate) (t0 t1 : Int)
    (hv0 : validDate d0)
    (hcore : resolveCore d0 [t0, t1] = .ok d2)
    (hcf1 : d0.day ≤ daysInMonth (d0.year + t0) d0.month)
    (hcf2 : d0.day ≤ daysInMonth d2.year d2.month)
    (hbr : 1 ≤ d2.year - t0 ∧ d2.year - t0 ≤ 9999)
    (hcb1 : d2.day ≤ daysInMonth (d2.year - t0) d2.month) :
    validDate d2 ∧ d2.day = d0.day ∧ resolveCore d2 [-t0, -t1] = .ok d0 := by
  cases hay : addYears d0 t0 with
  | error e => rw [resolveCore_two_error _ _ _ _ hay] at hcore; simp at hcore
  | ok d1 =>
    rw [resolveCore_two _ _ _ _ hay] at hcore
    have hv2 : validDate d2 :=
      addMonths_valid d1 t1 d2 (addYears_valid d0 t0 d1 hv0 hay) hcore
    refine ⟨hv2, ?_⟩
    obtain ⟨y0, m0, dd0⟩ := d0
    obtain ⟨hv01, hv02, hv03, hv04, hv05, hv06⟩ := hv0
    have hcf1' : dd0 ≤ daysInMonth (y0 + t0) m0 := hcf1
    obtain ⟨hd1, hr1, hr2⟩ := addYears_ok_shape _ _ _ hay hcf1'
    have hd1' : d1 = ⟨y0 + t0, m0, dd0⟩ := hd1
    clear hd1
    subst hd1'
    obtain ⟨y2, m2, dd2⟩ := d2
    unfold addMonths at hcore
    split at hcore
    · next hr =>
      simp only [Except.ok.injEq, PyDate.mk.injEq] at hcore
      obtain ⟨hy2, hm2, hd2⟩ := hcore
      have hcf2' : dd0 ≤ daysInMonth y2 m2 := hcf2
      rw [← hy2, ← hm2] at hcf2'
      rw [min_eq_left hcf2'] at hd2
      constructor
      · exact hd2.symm
      · have hbr' : 1 ≤ y2 - t0 ∧ y2 - t0 ≤ 9999 := hbr
        have hcb1' : dd2 ≤ daysInMonth (y2 - t0) m2 := hcb1
        have hyb : addYears ⟨y2, m2, dd2⟩ (-t0) = .ok ⟨y2 + -t0, m2, dd2⟩ := by
          unfold addYears
          have hb1 : (1 : Int) ≤ y2 + -t0 ∧ y2 + -t0 ≤ 9999 := by
            obtain ⟨hb1, hb2⟩ := hbr'
            constructor <;> omega
          rw [if_pos hb1]
          have he : y2 + -t0 = y2 - t0 := by ring
          rw [he]
          rw [min_eq_left hcb1']
        rw [resolveCore_two _ _ _ _ hyb]
        unfold addMonths
        have hE : 12 * (y2 + -t0) + (m2 - 1) + -t1 = 12 * y0 + (m0 - 1) := by
          have hkeep1 : (12 * (y0 + t0) + (m0 - 1) + t1) / 12 = y2 := hy2
          have hkeep2 : (12 * (y0 + t0) + (m0 - 1) + t1) % 12 + 1 = m2 := hm2
          omega
        rw [hE]
        have hm03 : (1 : Int) ≤ m0 := hv03
        have hm04 : m0 ≤ 12 := hv04
        have he1 : Int.ediv (12 * y0 + (m0 - 1)) 12 = y0 := by
          show (12 * y0 + (m0 - 1)) / 12 = y0
          omega
        have he2 : Int.emod (12 * y0 + (m0 - 1)) 12 = m0 - 1 := by
          show (12 * y0 + (m0 - 1)) % 12 = m0 - 1
          omega
        rw [he1, he2]
        rw [if_pos ⟨hv01, hv02⟩]
        have hm0 : m0 - 1 + 1 = m0 := by ring
        rw [hm0]
        rw [← hd2]
        have hv06' : dd0 ≤ daysInMonth y0 m0 := hv06
        rw [min_eq_left hv06']
    · simp at hcore

theorem find_cited_date_ok (citing timespan : String) (ts : List Int) (d0 d2 : PyDate)
    (h1 : timesOf timespan = .ok ts) (h2 : parseIso (padRef citing) = .ok d0)
    (h3 : resolveCore d0 ts = .ok d2) :
    find_cited_date citing timespan =
      .ok (String.mk ((renderDate d2).take citing.length)) := by
  simp only [find_cited_date, h1, h2, h3]

/-- C2 (amended): the duration round trip holds for well-formed signed
descriptors with a year component, or a year and a month component when
the reference carries at least month precision, provided no step of
either direction clamps a day to a shorter month and the backward year
shift stays inside the supported year range 1..9999.  Resolving the
descriptor from the reference date and then resolving the
direction-inverted descriptor from the derived date returns the original
reference string. -/
theorem C2_amended_roundtrip
    (ref desc der : String) (ts : List Int) (d0 d2 : PyDate)
    (hshape : descShapeB desc = true)
    (hts : timesOf desc = .ok ts)
    (hL : ref.length = 4 ∨ ref.length = 7 ∨ ref.length = 10)
    (hlen2 : ts.length = 1 ∨ (ts.length = 2 ∧ (ref.length = 7 ∨ ref.length = 10)))
    (hp : parseIso (padRef ref) = .ok d0)
    (hcore : resolveCore d0 ts = .ok d2)
    (hder : find_cited_date ref desc = .ok der)
    (hcf1 : d0.day ≤ daysInMonth (d0.year + ts.headD 0) d0.month)
    (hcf2 : d0.day ≤ daysInMonth d2.year d2.month)
    (hbr : 1 ≤ d2.year - ts.headD 0 ∧ d2.year - ts.headD 0 ≤ 9999)
    (hcb1 : d2.day ≤ daysInMonth (d2.year - ts.headD 0) d2.month) :
    find_cited_date der (invertDesc desc) = .ok ref := by
  obtain ⟨hv0, href, h7d0, h4d0⟩ := parse_padRef_props ref d0 ref.length hL rfl hp
  have hder0 := find_cited_date_ok ref desc ts d0 d2 hts hp hcore
  rw [hder0] at hder
  injection hder with hder'
  have hts' := timesOf_invert desc ts hshape hts
  rcases hlen2 with h1 | ⟨h2, hL2⟩
  · obtain ⟨t0, ht0⟩ : ∃ t0, ts = [t0] := by
      cases ts with
      | nil => simp at h1
      | cons a l =>
        cases l with
        | nil => exact ⟨a, rfl⟩
        | cons b l2 => simp at h1
    subst ht0
    have hcf1' : d0.day ≤ daysInMonth (d0.year + t0) d0.month := hcf1
    obtain ⟨hy2, hm2, hdd2, hback⟩ := resolveY_roundtrip d0 d2 t0 hv0 hcore hcf1'
    have hcore' : addYears d0 t0 = .ok d2 := hcore
    have hv2 : validDate d2 := addYears_valid d0 t0 d2 hv0 hcore'
    have h7' : ref.length = 7 → d2.day = 1 := by
      intro hh; rw [hdd2]; exact h7d0 hh
    have h4' : ref.length = 4 → (d2.month = 1 ∧ d2.day = 1) := by
      intro hh
      obtain ⟨ha, hb2⟩ := h4d0 hh
      exact ⟨by rw [hm2, ha], by rw [hdd2, hb2]⟩
    have hpb : parseIso (padRef der) = .ok d2 := by
      rw [← hder']
      exact parse_pad_render_take d2 hv2 ref.length hL h7' h4'
    have hbackm : resolveCore d2 ([t0].map (fun t => -t)) = .ok d0 := by
      have hmm : ([t0].map (fun t => -t)) = [-t0] := by simp
      rw [hmm]; exact hback
    have hlen_der : der.length = ref.length := by
      rw [← hder', string_mk_length, List.length_take, renderDate_length]
      rcases hL with h | h | h <;> rw [h] <;> decide
    have hfin := find_cited_date_ok der (invertDesc desc)
      ([t0].map (fun t => -t)) d2 d0 hts' hpb hbackm
    rw [hfin, hlen_der, ← href]
  · obtain ⟨t0, t1, ht01⟩ : ∃ t0 t1, ts = [t0, t1] := by
      cases ts with
      | nil => simp at h2
      | cons a l =>
        cases l with
        | nil => simp at h2
        | cons b l2 =>
          cases l2 with
          | nil => exact ⟨a, b, rfl⟩
          | cons c l3 => simp at h2
    subst ht01
    have hcf1' : d0.day ≤ daysInMonth (d0.year + t0) d0.month := hcf1
    have hbr' : 1 ≤ d2.year - t0 ∧ d2.year - t0 ≤ 9999 := hbr
    have hcb1' : d2.day ≤ daysInMonth (d2.year - t0) d2.month := hcb1
    obtain ⟨hv2, hdd2, hback⟩ :=
      resolveYM_roundtrip d0 d2 t0 t1 hv0 hcore hcf1' hcf2 hbr' hcb1'
    have h7' : ref.length = 7 → d2.day = 1 := by
      intro hh; rw [hdd2]; exact h7d0 hh
    have h4' : ref.length = 4 → (d2.month = 1 ∧ d2.day = 1) := by
      intro hh; rcases hL2 with hx | hx <;> omega
    have hpb : parseIso (padRef der) = .ok d2 := by
      rw [← hder']
      exact parse_pad_render_take d2 hv2 ref.length hL h7' h4'
    have hbackm : resolveCore d2 ([t0, t1].map (fun t => -t)) = .ok d0 := by
      have hmm : ([t0, t1].map (fun t => -t)) = [-t0, -t1] := by simp
      rw [hmm]; exact hback
    have hlen_der : der.length = ref.length := by
      rw [← hder', string_mk_length, List.length_take, renderDate_length]
      rcases hL with h | h | h <;> rw [h] <;> decide
    have hfin := find_cited_date_ok der (invertDesc desc)
      ([t0, t1].map (fun t => -t)) d2 d0 hts' hpb hbackm
    rw [hfin, hlen_der, ← href]

theorem C2_amended_roundtrip_witness :
    find_cited_date "2020-03-05" "P1Y2M" = .ok "2019-01-05" ∧
    find_cited_date "2019-01-05" (invertDesc "P1Y2M") = .ok "2020-03-05" :=
  ⟨by decide,
   C2_amended_roundtrip "2020-03-05" "P1Y2M" "2019-01-05" [-1, -2]
     ⟨2020, 3, 5⟩ ⟨2019, 1, 5⟩
     (by decide) (by decide) (by decide) (by decide) (by decide) (by decide)
     (by decide) (by decide) (by decide) (by decide) (by decide)⟩

/-- C2 counterexample: the descriptor `P1Y1M10D` is well formed and no
step of either direction clamps a day to a shorter month (March and
February 2019 both have at least 5 days, January and February 2020 both
have at least 26 days, and pure day shifts never clamp), yet resolving it
from `2020-03-05` gives `2019-01-26` and resolving the direction-inverted
descriptor `-P1Y1M10D` from that derived date gives `2020-03-07`, not the
original reference date: the year/month steps are applied in the same
order in both directions, so the day shift crosses a different month
boundary on the way back. -/
theorem C2_counterexample :
    find_cited_date "2020-03-05" "P1Y1M10D" = .ok "2019-01-26" ∧
    find_cited_date "2019-01-26" (invertDesc "P1Y1M10D") = .ok "2020-03-07" ∧
    ("2020-03-07" : String) ≠ "2020-03-05" ∧
    descShapeB "P1Y1M10D" = true ∧
    ((5 : Int) ≤ daysInMonth 2019 3 ∧ (5 : Int) ≤ daysInMonth 2019 2 ∧
     (26 : Int) ≤ daysInMonth 2020 1 ∧ (26 : Int) ≤ daysInMonth 2020 2) := by
  decide
